import Mathlib

/-!
# TraceMaD: a 2D ray caster

A shallow embedding of `src/main.cpp`, and of the prototype rasteriser
`FillCircle` of `src/main1.cpp` (namespace `Prototype`).

* `double` values are elements of a linearly ordered field `K`; the square root
  `std::sqrt` is passed to the functions that call it, and the theorems that
  need its properties are stated over `ℝ` with `Real.sqrt`.
* `int` values are elements of `Int`. Every `int` that `draw_line` computes
  after clamping is bounded by the screen size, far from overflow; the
  conversions `(int)v` and the sums `cx + r`, `cx - r`, `r * r` of
  `draw_filled_circle` are taken to stay in the range of `int`.
* A drawing routine is the sequence of `put_pixel_fast` calls it makes, and the
  pixel buffer is a map from the index `y * pitch + x` to the stored value.
* A `while (true)` loop is run for a bounded number of iterations and reports
  whether it reached its `break`.
-/

namespace TraceMaD

/-! ## Global settings and data model -/

/-- Screen width in pixels: `const int SCREEN_WIDTH = 1200;` -/
def SCREEN_WIDTH : Int := 1200

/-- Screen height in pixels: `const int SCREEN_HEIGHT = 600;` -/
def SCREEN_HEIGHT : Int := 600

/-- A point or vector: `struct Vec2 { double x, y; };` -/
structure Vec2 (K : Type) where
  x : K
  y : K

/-- An obstacle or the light glyph: `struct Circle { Vec2 pos; double radius; Vec2 velocity; };` -/
structure Circle (K : Type) where
  pos : Vec2 K
  radius : K
  velocity : Vec2 K

/-- A ray: `struct Ray { Vec2 start; Vec2 dir; };` -/
structure Ray (K : Type) where
  start : Vec2 K
  dir : Vec2 K

/-- The lambda `clamp(val, min, max)` on `int`. -/
def clamp (val lo hi : Int) : Int :=
  if val < lo then lo
  else if val > hi then hi
  else val

/-! ## The intersection solver -/

section Solver

variable {K : Type} [LinearOrderedField K]

/-- The border part of `calculate_intersection` (lines 103-117): the running
minimum after the sentinel and the four screen borders. -/
def calculate_intersection.borders (ray : Ray K) : K :=
  let min_t : K := 10 ^ 30
  let min_t :=
    if ray.dir.x ≠ 0 then
      let t1 := (0 - ray.start.x) / ray.dir.x
      let t2 := ((SCREEN_WIDTH : K) - ray.start.x) / ray.dir.x
      let min_t := if t1 > 0 then min min_t t1 else min_t
      if t2 > 0 then min min_t t2 else min_t
    else min_t
  if ray.dir.y ≠ 0 then
    let t1 := (0 - ray.start.y) / ray.dir.y
    let t2 := ((SCREEN_HEIGHT : K) - ray.start.y) / ray.dir.y
    let min_t := if t1 > 0 then min min_t t1 else min_t
    if t2 > 0 then min min_t t2 else min_t
  else min_t

/-- One iteration of the obstacle loop of `calculate_intersection`
(lines 120-137): the new value of `min_t`. -/
def calculate_intersection.circle (sqrt : K → K) (ray : Ray K) (min_t : K)
    (circle : Circle K) : K :=
  let L : Vec2 K := ⟨circle.pos.x - ray.start.x, circle.pos.y - ray.start.y⟩
  let tca := L.x * ray.dir.x + L.y * ray.dir.y
  if tca < 0 then min_t
  else
    let d2 := (L.x * L.x + L.y * L.y) - (tca * tca)
    let r2 := circle.radius * circle.radius
    if d2 > r2 then min_t
    else
      let thc := sqrt (r2 - d2)
      let t0 := tca - thc
      if t0 > 0 ∧ t0 < min_t then t0 else min_t

/-- The solver `double calculate_intersection(Ray ray, const std::vector<Circle>& obstacles)`:
the obstacle loop run from the value the borders leave in `min_t`. -/
def calculate_intersection (sqrt : K → K) (ray : Ray K) (obstacles : List (Circle K)) : K :=
  obstacles.foldl (calculate_intersection.circle sqrt ray) (calculate_intersection.borders ray)

/-- The candidate an obstacle contributes, as the specification words it: with
`L = center - origin`, `tca = L . dir` and `d2 = |L|^2 - tca^2`, the near root
`t0 = tca - sqrt (r^2 - d2)` when `tca >= 0`, `d2 <= r^2` and `t0 > 0`. -/
def near_root (sqrt : K → K) (ray : Ray K) (c : Circle K) : Option K :=
  let Lx := c.pos.x - ray.start.x
  let Ly := c.pos.y - ray.start.y
  let tca := Lx * ray.dir.x + Ly * ray.dir.y
  let d2 := (Lx * Lx + Ly * Ly) - tca * tca
  let t0 := tca - sqrt (c.radius * c.radius - d2)
  if 0 ≤ tca ∧ d2 ≤ c.radius * c.radius ∧ 0 < t0 then some t0 else none

/-- The candidate distances as the specification lists them: the sentinel, the
positive border distances of each axis with a non-zero direction component, and
the candidate of every obstacle. -/
def candidate_distances (sqrt : K → K) (ray : Ray K) (obstacles : List (Circle K)) : List K :=
  [10 ^ 30]
  ++ (if ray.dir.x ≠ 0 then
        [(0 - ray.start.x) / ray.dir.x, ((1200 : K) - ray.start.x) / ray.dir.x].filter
          (fun t => 0 < t)
      else [])
  ++ (if ray.dir.y ≠ 0 then
        [(0 - ray.start.y) / ray.dir.y, ((600 : K) - ray.start.y) / ray.dir.y].filter
          (fun t => 0 < t)
      else [])
  ++ obstacles.filterMap (near_root sqrt ray)

/-- The point `start + dir * t` of a ray, as lines 218-219 compute the hit point. -/
def Ray.point (ray : Ray K) (t : K) : Vec2 K :=
  ⟨ray.start.x + ray.dir.x * t, ray.start.y + ray.dir.y * t⟩

/-- The length of a vector. -/
def Vec2.length (sqrt : K → K) (v : Vec2 K) : K :=
  sqrt (v.x * v.x + v.y * v.y)

/-- The distance between two points. -/
def distance (sqrt : K → K) (p q : Vec2 K) : K :=
  Vec2.length sqrt ⟨p.x - q.x, p.y - q.y⟩

/-- The distance from a point to the farthest of the four screen corners
(0,0), (1200,0), (0,600), (1200,600). -/
def farthest_corner_distance (sqrt : K → K) (p : Vec2 K) : K :=
  max (max (distance sqrt ⟨0, 0⟩ p) (distance sqrt ⟨1200, 0⟩ p))
    (max (distance sqrt ⟨0, 600⟩ p) (distance sqrt ⟨1200, 600⟩ p))

/-! ## Physics update -/

/-- The update of the moving obstacle in the main loop (lines 199-203):
`pos.y += velocity.y * deltaTime`, then `velocity.y *= -1` when an edge is
outside the screen. -/
def bounce (c : Circle K) (deltaTime : K) : Circle K :=
  let c : Circle K := { c with pos := ⟨c.pos.x, c.pos.y + c.velocity.y * deltaTime⟩ }
  if c.pos.y - c.radius < 0 ∨ c.pos.y + c.radius > (SCREEN_HEIGHT : K) then
    { c with velocity := ⟨c.velocity.x, c.velocity.y * -1⟩ }
  else c

/-- The physics part of one iteration of the main loop: `obstacles[0]` bounces,
the other obstacles are untouched. The scene always has an obstacle 0; the
empty list is left as it is. -/
def physics_update (obstacles : List (Circle K)) (deltaTime : K) : List (Circle K) :=
  match obstacles with
  | [] => []
  | c :: rest => bounce c deltaTime :: rest

/-- The state of the moving obstacle after a sequence of ticks. -/
def bounce_ticks (c : Circle K) (dts : List K) : Circle K :=
  dts.foldl bounce c

end Solver

/-! ## Drawing -/

/-- Pixel values: `Uint32`. -/
abbrev Uint32 := Nat

/-- The store `pixels[y * pitch + x] = color;` of `put_pixel_fast`. -/
def put_pixel_fast (pixels : Int → Uint32) (pitch x y : Int) (color : Uint32) : Int → Uint32 :=
  Function.update pixels (y * pitch + x) color

/-- The buffer after a sequence of `put_pixel_fast` calls with one color. -/
def plot (pixels : Int → Uint32) (pitch : Int) (writes : List (Int × Int)) (color : Uint32) :
    Int → Uint32 :=
  writes.foldl (fun px p => put_pixel_fast px pitch p.1 p.2 color) pixels

/-- The integers `lo, lo + 1, ..., hi` in order, the values a loop
`for (int v = lo; v <= hi; v++)` takes. -/
def forRange (lo hi : Int) : List Int :=
  (List.range (hi + 1 - lo).toNat).map (fun (i : Nat) => lo + (i : Int))

/-- The scan of `draw_filled_circle` (lines 57-71) for the integer center
`(cx, cy)` and radius `r`: the pixels handed to `put_pixel_fast`, in order.
The test `dx * dx + dy * dy <= r * r` is computed in `double` from integer
values, where it is exact. -/
def draw_filled_circle.scan (cx cy r : Int) : List (Int × Int) :=
  let x_start := max 0 (cx - r)
  let x_end := min (SCREEN_WIDTH - 1) (cx + r)
  let y_start := max 0 (cy - r)
  let y_end := min (SCREEN_HEIGHT - 1) (cy + r)
  (forRange y_start y_end).flatMap (fun y =>
    ((forRange x_start x_end).filter (fun x =>
      let dx := x - cx
      let dy := y - cy
      (dx * dx) + (dy * dy) ≤ (r * r))).map (fun x => (x, y)))

/-- The loop of `draw_line` (lines 91-98) run for at most `fuel` iterations
from the point `(x0, y0)` with error term `err`: the pixels handed to
`put_pixel_fast` in order, and whether the `break` was reached. -/
def draw_line.loop (x1 y1 dx dy sx sy : Int) :
    Nat → Int → Int → Int → List (Int × Int) × Bool
  | 0, _, _, _ => ([], false)
  | fuel + 1, x0, y0, err =>
    if x0 = x1 ∧ y0 = y1 then ([(x0, y0)], true)
    else
      let e2 := 2 * err
      let err1 := if e2 ≥ dy then err + dy else err
      let x0n := if e2 ≥ dy then x0 + sx else x0
      let err2 := if e2 ≤ dx then err1 + dx else err1
      let y0n := if e2 ≤ dx then y0 + sy else y0
      let rest := draw_line.loop x1 y1 dx dy sx sy fuel x0n y0n err2
      ((x0, y0) :: rest.1, rest.2)

/-- The body of `draw_line` (lines 80-98) with its loop cut after `fuel` iterations. -/
def draw_line.run (fuel : Nat) (x0 y0 x1 y1 : Int) : List (Int × Int) × Bool :=
  let x0 := clamp x0 0 (SCREEN_WIDTH - 1)
  let y0 := clamp y0 0 (SCREEN_HEIGHT - 1)
  let x1 := clamp x1 0 (SCREEN_WIDTH - 1)
  let y1 := clamp y1 0 (SCREEN_HEIGHT - 1)
  let dx := |x1 - x0|
  let dy := -|y1 - y0|
  let sx : Int := if x0 < x1 then 1 else -1
  let sy : Int := if y0 < y1 then 1 else -1
  let err := dx + dy
  draw_line.loop x1 y1 dx dy sx sy fuel x0 y0 err

/-- The pixels `draw_line` writes, in order. The loop is run for
`SCREEN_WIDTH + SCREEN_HEIGHT` iterations, within which it always reaches its
`break` (`draw_line.run_halts`). -/
def draw_line (x0 y0 x1 y1 : Int) : List (Int × Int) :=
  (draw_line.run (SCREEN_WIDTH + SCREEN_HEIGHT).toNat x0 y0 x1 y1).1

section Render

variable {K : Type} [LinearOrderedField K] [FloorRing K]

/-- The conversion `(int)v` of a `double`: rounding toward zero. -/
def trunc (v : K) : Int :=
  if 0 ≤ v then ⌊v⌋ else ⌈v⌉

/-- The pixels `draw_filled_circle(surface, circle, color)` writes, in order. -/
def draw_filled_circle (circle : Circle K) : List (Int × Int) :=
  draw_filled_circle.scan (trunc circle.pos.x) (trunc circle.pos.y) (trunc circle.radius)

/-- The render pass of one frame whose surface lock succeeds (lines 214-231),
from the buffer `pixels` that `SDL_FillSurfaceRect` has cleared: every ray in
`dirs` is traced from `lightPos` and drawn in `yellow`, then every obstacle is
drawn in `blue`, then the light glyph in `white`. -/
def render_pass (sqrt : K → K) (pitch : Int) (white yellow blue : Uint32)
    (lightPos : Vec2 K) (obstacles : List (Circle K)) (dirs : List (Vec2 K))
    (pixels : Int → Uint32) : Int → Uint32 :=
  let pixels := dirs.foldl (fun px d =>
    let ray : Ray K := ⟨lightPos, d⟩
    let dist := calculate_intersection sqrt ray obstacles
    let targetX := trunc (ray.start.x + ray.dir.x * dist)
    let targetY := trunc (ray.start.y + ray.dir.y * dist)
    plot px pitch (draw_line (trunc ray.start.x) (trunc ray.start.y) targetX targetY) yellow)
    pixels
  let pixels := obstacles.foldl (fun px obs => plot px pitch (draw_filled_circle obs) blue) pixels
  let playerDot : Circle K := ⟨lightPos, 10, ⟨0, 0⟩⟩
  plot pixels pitch (draw_filled_circle playerDot) white

end Render

/-- One step of an 8-connected path toward the point `(x1, y1)`: from pixel `p`
to pixel `q` each coordinate changes by at most 1, one of them by exactly 1,
and each coordinate of `q` lies between that of `p` and that of the end point. -/
def line_step (x1 y1 : Int) (p q : Int × Int) : Prop :=
  (|q.1 - p.1| ≤ 1 ∧ |q.2 - p.2| ≤ 1) ∧ (|q.1 - p.1| = 1 ∨ |q.2 - p.2| = 1) ∧
  ((p.1 ≤ q.1 ∧ q.1 ≤ x1) ∨ (x1 ≤ q.1 ∧ q.1 ≤ p.1)) ∧
  ((p.2 ≤ q.2 ∧ q.2 ≤ y1) ∨ (y1 ≤ q.2 ∧ q.2 ≤ p.2))

/-! ## The prototype rasteriser of `main1.cpp` -/

namespace Prototype

/-- Window width of the prototype: `#define WIDTH 900`. -/
def WIDTH : Int := 900

/-- Window height of the prototype: `#define HEIGHT 600`. -/
def HEIGHT : Int := 600

/-- The circle of the prototype: `struct Circle { double x; double y; double r; };` -/
structure Circle (K : Type) where
  x : K
  y : K
  r : K

section

variable {K : Type} [LinearOrderedField K] [FloorRing K]

/-- The values `lo, lo + 1, lo + 2, ...` up to `hi`, in order: the values a loop
`for (double v = lo; v <= hi; v++)` takes. There are `floor (hi - lo) + 1` of
them when `lo <= hi` and none otherwise. -/
def forRangeD (lo hi : K) : List K :=
  (List.range (⌊hi - lo⌋ + 1).toNat).map (fun (i : Nat) => lo + (i : K))

/-- The 1x1 rectangles `FillCircle(surface, circle, color)` fills, in order,
each given by its corner `((int)x, (int)y)`. -/
def FillCircle (circle : Circle K) : List (Int × Int) :=
  let radius_squared := circle.r ^ 2
  (forRangeD (circle.x - circle.r) (circle.x + circle.r)).flatMap (fun x =>
    (forRangeD (circle.y - circle.r) (circle.y + circle.r)).filterMap (fun y =>
      let distance_squared := (x - circle.x) ^ 2 + (y - circle.y) ^ 2
      if distance_squared < radius_squared then
        if x ≥ 0 ∧ x < (WIDTH : K) ∧ y ≥ 0 ∧ y < (HEIGHT : K) then some (trunc x, trunc y)
        else none
      else none))

end

end Prototype

/-! ## The solver: structure of the result -/

section SolverLemmas

variable {K : Type} [LinearOrderedField K]

/-- One iteration of the obstacle loop takes the minimum with the obstacle's
candidate when there is one, and leaves `min_t` alone otherwise. -/
theorem calculate_intersection.circle_eq (sqrt : K → K) (ray : Ray K) (m : K) (c : Circle K) :
    calculate_intersection.circle sqrt ray m c =
      match near_root sqrt ray c with
      | some t => min m t
      | none => m := by
  unfold calculate_intersection.circle near_root
  dsimp only
  by_cases h1 : (c.pos.x - ray.start.x) * ray.dir.x + (c.pos.y - ray.start.y) * ray.dir.y < 0
  · have h1n := not_le.mpr h1
    simp [h1, h1n]
  · have h1p := not_lt.mp h1
    by_cases h2 : (c.pos.x - ray.start.x) * (c.pos.x - ray.start.x)
        + (c.pos.y - ray.start.y) * (c.pos.y - ray.start.y)
        - ((c.pos.x - ray.start.x) * ray.dir.x + (c.pos.y - ray.start.y) * ray.dir.y)
          * ((c.pos.x - ray.start.x) * ray.dir.x + (c.pos.y - ray.start.y) * ray.dir.y)
        > c.radius * c.radius
    · have h2n := not_le.mpr h2
      simp [h1, h2, h2n]
    · have h2p := not_lt.mp h2
      by_cases h3 : 0 < (c.pos.x - ray.start.x) * ray.dir.x + (c.pos.y - ray.start.y) * ray.dir.y
          - sqrt (c.radius * c.radius - ((c.pos.x - ray.start.x) * (c.pos.x - ray.start.x)
            + (c.pos.y - ray.start.y) * (c.pos.y - ray.start.y)
            - ((c.pos.x - ray.start.x) * ray.dir.x + (c.pos.y - ray.start.y) * ray.dir.y)
              * ((c.pos.x - ray.start.x) * ray.dir.x + (c.pos.y - ray.start.y) * ray.dir.y)))
      · simp only [h1, h2, h1p, h2p, h3, if_false, if_true, true_and, gt_iff_lt]
        split_ifs with h4
        · exact (min_eq_right h4.le).symm
        · exact (min_eq_left (not_lt.mp h4)).symm
      · simp [h1, h2, h1p, h2p, h3]

/-- The obstacle loop never raises the running minimum. -/
theorem calculate_intersection.circle_le (sqrt : K → K) (ray : Ray K) (m : K) (c : Circle K) :
    calculate_intersection.circle sqrt ray m c ≤ m := by
  rw [calculate_intersection.circle_eq]
  cases near_root sqrt ray c with
  | none => exact le_refl m
  | some t => exact min_le_left m t

/-- The obstacle loop from `m`: the result is `m` or the candidate of an obstacle. -/
theorem calculate_intersection.loop_mem (sqrt : K → K) (ray : Ray K) (obstacles : List (Circle K))
    (m : K) :
    obstacles.foldl (calculate_intersection.circle sqrt ray) m = m ∨
      obstacles.foldl (calculate_intersection.circle sqrt ray) m
        ∈ obstacles.filterMap (near_root sqrt ray) := by
  induction obstacles generalizing m with
  | nil => exact Or.inl rfl
  | cons c rest ih =>
    rw [List.foldl_cons, List.filterMap_cons]
    have hstep := calculate_intersection.circle_eq sqrt ray m c
    cases hc : near_root sqrt ray c with
    | none =>
      rw [hc] at hstep
      dsimp only at hstep ⊢
      rw [hstep]
      exact ih m
    | some t =>
      rw [hc] at hstep
      dsimp only at hstep ⊢
      rw [hstep]
      rcases ih (min m t) with h | h
      · rcases min_choice m t with hm | hm
        · exact Or.inl (h.trans hm)
        · exact Or.inr (by rw [h, hm]; exact List.mem_cons_self t _)
      · exact Or.inr (List.mem_cons_of_mem t h)

/-- The obstacle loop from `m`: the result is at most `m`. -/
theorem calculate_intersection.loop_le_init (sqrt : K → K) (ray : Ray K)
    (obstacles : List (Circle K)) (m : K) :
    obstacles.foldl (calculate_intersection.circle sqrt ray) m ≤ m := by
  induction obstacles generalizing m with
  | nil => exact le_refl m
  | cons c rest ih =>
    rw [List.foldl_cons]
    exact (ih _).trans (calculate_intersection.circle_le sqrt ray m c)

/-- The obstacle loop from `m`: the result is at most every obstacle's candidate. -/
theorem calculate_intersection.loop_le_cand (sqrt : K → K) (ray : Ray K)
    (obstacles : List (Circle K)) (m t : K)
    (ht : t ∈ obstacles.filterMap (near_root sqrt ray)) :
    obstacles.foldl (calculate_intersection.circle sqrt ray) m ≤ t := by
  induction obstacles generalizing m with
  | nil => simp at ht
  | cons c rest ih =>
    rw [List.foldl_cons]
    rw [List.filterMap_cons] at ht
    have hstep := calculate_intersection.circle_eq sqrt ray m c
    cases hc : near_root sqrt ray c with
    | none =>
      rw [hc] at ht
      exact ih _ ht
    | some u =>
      rw [hc] at ht hstep
      dsimp only at ht hstep
      rcases List.mem_cons.mp ht with h | h
      · rw [hstep, h]
        exact (calculate_intersection.loop_le_init sqrt ray rest _).trans (min_le_right m u)
      · exact ih _ h

/-- The border test of one axis (origin coordinate `o`, direction component
`d`, far border `w`) from the running minimum `m`: the result is `m` or a
positive border distance, and is at most `m` and every positive border distance. -/
theorem calculate_intersection.axis_least (m o d w : K) :
    let r := if d ≠ 0 then
        (if (w - o) / d > 0 then min (if (0 - o) / d > 0 then min m ((0 - o) / d) else m)
            ((w - o) / d)
          else (if (0 - o) / d > 0 then min m ((0 - o) / d) else m))
      else m
    let cands := if d ≠ 0 then [(0 - o) / d, (w - o) / d].filter (fun t => 0 < t) else []
    (r = m ∨ r ∈ cands) ∧ r ≤ m ∧ ∀ t ∈ cands, r ≤ t := by
  intro r cands
  by_cases hd : d = 0
  · simp [r, cands, hd]
  · by_cases h1 : 0 < (0 - o) / d <;> by_cases h2 : 0 < (w - o) / d
    · simp only [r, cands, hd, h1, h2, ne_eq, not_false_eq_true, if_true, gt_iff_lt,
        List.filter, decide_True, List.mem_cons, List.mem_nil_iff, or_false, forall_eq_or_imp,
        forall_eq]
      refine ⟨?_, ?_, ?_, min_le_right _ _⟩
      · rcases min_choice (min m ((0 - o) / d)) ((w - o) / d) with h | h
        · rcases min_choice m ((0 - o) / d) with h3 | h3
          · exact Or.inl (h.trans h3)
          · exact Or.inr (Or.inl (h.trans h3))
        · exact Or.inr (Or.inr h)
      · exact (min_le_left _ _).trans (min_le_left _ _)
      · exact (min_le_left _ _).trans (min_le_right _ _)
    · simp only [r, cands, hd, h1, h2, ne_eq, not_false_eq_true, if_true, if_false, gt_iff_lt,
        List.filter, decide_True, decide_False, List.mem_cons, List.mem_nil_iff, or_false,
        forall_eq]
      refine ⟨?_, min_le_left _ _, min_le_right _ _⟩
      rcases min_choice m ((0 - o) / d) with h3 | h3
      · exact Or.inl h3
      · exact Or.inr h3
    · simp only [r, cands, hd, h1, h2, ne_eq, not_false_eq_true, if_true, if_false, gt_iff_lt,
        List.filter, decide_True, decide_False, List.mem_cons, List.mem_nil_iff, or_false,
        forall_eq]
      refine ⟨?_, min_le_left _ _, min_le_right _ _⟩
      rcases min_choice m ((w - o) / d) with h3 | h3
      · exact Or.inl h3
      · exact Or.inr h3
    · simp only [r, cands, hd, h1, h2, ne_eq, not_false_eq_true, if_true, if_false, gt_iff_lt,
        List.filter, decide_False]
      simp

/-- The value the borders leave in `min_t` is one of the sentinel and the
positive border distances, and the least of them. -/
theorem calculate_intersection.borders_least (sqrt : K → K) (ray : Ray K) :
    calculate_intersection.borders ray ∈ candidate_distances sqrt ray [] ∧
      ∀ t ∈ candidate_distances sqrt ray [], calculate_intersection.borders ray ≤ t := by
  have hW : ((SCREEN_WIDTH : Int) : K) = 1200 := by norm_num [SCREEN_WIDTH]
  have hH : ((SCREEN_HEIGHT : Int) : K) = 600 := by norm_num [SCREEN_HEIGHT]
  unfold calculate_intersection.borders candidate_distances
  rw [hW, hH]
  generalize (10 : K) ^ 30 = s
  dsimp only
  obtain ⟨hx1, hx2, hx3⟩ := calculate_intersection.axis_least s ray.start.x ray.dir.x 1200
  generalize (if ray.dir.x ≠ 0 then
        (if ((1200 : K) - ray.start.x) / ray.dir.x > 0 then
          min (if (0 - ray.start.x) / ray.dir.x > 0 then min s ((0 - ray.start.x) / ray.dir.x)
            else s) (((1200 : K) - ray.start.x) / ray.dir.x)
          else (if (0 - ray.start.x) / ray.dir.x > 0 then min s ((0 - ray.start.x) / ray.dir.x)
            else s))
      else s) = mx at hx1 hx2 hx3 ⊢
  obtain ⟨hy1, hy2, hy3⟩ := calculate_intersection.axis_least mx ray.start.y ray.dir.y 600
  generalize (if ray.dir.y ≠ 0 then
        (if ((600 : K) - ray.start.y) / ray.dir.y > 0 then
          min (if (0 - ray.start.y) / ray.dir.y > 0 then min mx ((0 - ray.start.y) / ray.dir.y)
            else mx) (((600 : K) - ray.start.y) / ray.dir.y)
          else (if (0 - ray.start.y) / ray.dir.y > 0 then min mx ((0 - ray.start.y) / ray.dir.y)
            else mx))
      else mx) = my at hy1 hy2 hy3 ⊢
  simp only [List.filterMap_nil, List.append_nil, List.mem_append, List.mem_singleton]
  constructor
  · rcases hy1 with h | h
    · rcases hx1 with h' | h'
      · exact Or.inl (Or.inl (h.trans h'))
      · exact Or.inl (Or.inr (h ▸ h'))
    · exact Or.inr h
  · rintro t ((ht | ht) | ht)
    · rw [ht]; exact hy2.trans hx2
    · exact hy2.trans (hx3 t ht)
    · exact hy3 t ht

/-- The candidates of a scene are those of the borders followed by those of the obstacles. -/
theorem candidate_distances_eq (sqrt : K → K) (ray : Ray K) (obstacles : List (Circle K)) :
    candidate_distances sqrt ray obstacles =
      candidate_distances sqrt ray [] ++ obstacles.filterMap (near_root sqrt ray) := by
  simp [candidate_distances]

/-- An obstacle behind the ray leaves `min_t` alone. -/
theorem calculate_intersection.circle_behind (sqrt : K → K) (ray : Ray K) (m : K) (c : Circle K)
    (h : (c.pos.x - ray.start.x) * ray.dir.x + (c.pos.y - ray.start.y) * ray.dir.y < 0) :
    calculate_intersection.circle sqrt ray m c = m := by
  unfold calculate_intersection.circle
  dsimp only
  rw [if_pos h]

/-- Every candidate distance is strictly positive. -/
theorem candidate_distances_pos (sqrt : K → K) (ray : Ray K) (obstacles : List (Circle K)) :
    ∀ t ∈ candidate_distances sqrt ray obstacles, 0 < t := by
  intro t ht
  unfold candidate_distances at ht
  rcases List.mem_append.mp ht with h | h
  · rcases List.mem_append.mp h with h | h
    · rcases List.mem_append.mp h with h | h
      · rw [List.mem_singleton.mp h]; positivity
      · split_ifs at h
        · simpa using (List.mem_filter.mp h).2
        · simp at h
    · split_ifs at h
      · simpa using (List.mem_filter.mp h).2
      · simp at h
  · obtain ⟨c, -, hc⟩ := List.mem_filterMap.mp h
    unfold near_root at hc
    dsimp only at hc
    split_ifs at hc with hcond
    rw [← Option.some.inj hc]
    exact hcond.2.2

/-- The result is at most the result for the borders alone. -/
theorem calculate_intersection.le_borders (sqrt : K → K) (ray : Ray K)
    (obstacles : List (Circle K)) :
    calculate_intersection sqrt ray obstacles ≤ calculate_intersection.borders ray :=
  calculate_intersection.loop_le_init sqrt ray obstacles _

/-- The value the borders leave in `min_t` is at most the distance to the
border `x = 0` when the ray moves left, and to `x = 1200` when it moves right
from a point left of that border. -/
theorem calculate_intersection.borders_le_x (ray : Ray K) :
    (ray.dir.x < 0 → 0 < ray.start.x →
      calculate_intersection.borders ray ≤ (0 - ray.start.x) / ray.dir.x) ∧
    (0 < ray.dir.x → ray.start.x < 1200 →
      calculate_intersection.borders ray ≤ ((1200 : K) - ray.start.x) / ray.dir.x) := by
  obtain ⟨-, hle⟩ := calculate_intersection.borders_least (fun x => x) ray
  constructor
  · intro hd ho
    apply hle
    unfold candidate_distances
    have hpos : 0 < (0 - ray.start.x) / ray.dir.x :=
      div_pos_of_neg_of_neg (by linarith) hd
    refine List.mem_append_left _ (List.mem_append_left _ (List.mem_append_right _ ?_))
    rw [if_pos hd.ne]
    exact List.mem_filter.mpr ⟨by simp, by simpa using hpos⟩
  · intro hd ho
    apply hle
    unfold candidate_distances
    have hpos : 0 < ((1200 : K) - ray.start.x) / ray.dir.x := div_pos (by linarith) hd
    refine List.mem_append_left _ (List.mem_append_left _ (List.mem_append_right _ ?_))
    rw [if_pos hd.ne.symm]
    exact List.mem_filter.mpr ⟨by simp, by simpa using hpos⟩

/-- The value the borders leave in `min_t` is at most the distance to the
border `y = 0` when the ray moves up the screen, and to `y = 600` when it moves
down from a point above that border. -/
theorem calculate_intersection.borders_le_y (ray : Ray K) :
    (ray.dir.y < 0 → 0 < ray.start.y →
      calculate_intersection.borders ray ≤ (0 - ray.start.y) / ray.dir.y) ∧
    (0 < ray.dir.y → ray.start.y < 600 →
      calculate_intersection.borders ray ≤ ((600 : K) - ray.start.y) / ray.dir.y) := by
  obtain ⟨-, hle⟩ := calculate_intersection.borders_least (fun x => x) ray
  constructor
  · intro hd ho
    apply hle
    unfold candidate_distances
    have hpos : 0 < (0 - ray.start.y) / ray.dir.y :=
      div_pos_of_neg_of_neg (by linarith) hd
    refine List.mem_append_left _ (List.mem_append_right _ ?_)
    rw [if_pos hd.ne]
    exact List.mem_filter.mpr ⟨by simp, by simpa using hpos⟩
  · intro hd ho
    apply hle
    unfold candidate_distances
    have hpos : 0 < ((600 : K) - ray.start.y) / ray.dir.y := div_pos (by linarith) hd
    refine List.mem_append_left _ (List.mem_append_right _ ?_)
    rw [if_pos hd.ne.symm]
    exact List.mem_filter.mpr ⟨by simp, by simpa using hpos⟩

/-- A coordinate of the hit point stays between the borders of its axis: from
an origin coordinate `o` in `[0, w]`, with a direction component `d` that does
not point outwards at a border, a positive distance `t` that is at most the
distance to the border ahead keeps `o + d * t` in `[0, w]`. -/
theorem coordinate_in_range (o d w t : K) (ht : 0 < t) (ho0 : 0 ≤ o) (how : o ≤ w)
    (hleft : o = 0 → 0 ≤ d) (hright : o = w → d ≤ 0)
    (hneg : d < 0 → 0 < o → t ≤ (0 - o) / d) (hpos : 0 < d → o < w → t ≤ (w - o) / d) :
    0 ≤ o + d * t ∧ o + d * t ≤ w := by
  rcases lt_trichotomy d 0 with hd | hd | hd
  · have ho : 0 < o := lt_of_le_of_ne ho0 (fun h => absurd (hleft h.symm) (not_le.mpr hd))
    have h1 := hneg hd ho
    rw [le_div_iff_of_neg hd] at h1
    constructor
    · linarith
    · nlinarith [mul_pos_of_neg_of_neg hd (neg_lt_zero.mpr ht)]
  · rw [hd]; simp [ho0, how]
  · have ho : o < w := lt_of_le_of_ne how (fun h => absurd (hright h) (not_le.mpr hd))
    have h1 := hpos hd ho
    rw [le_div_iff₀ hd] at h1
    constructor
    · nlinarith [mul_pos hd ht]
    · linarith

/-- The result of `calculate_intersection` is strictly positive. -/
theorem calculate_intersection.pos (sqrt : K → K) (ray : Ray K) (obstacles : List (Circle K)) :
    0 < calculate_intersection sqrt ray obstacles :=
  candidate_distances_pos sqrt ray obstacles _
    (List.mem_append.mpr <| by
      rcases calculate_intersection.loop_mem sqrt ray obstacles
        (calculate_intersection.borders ray) with h | h
      · left
        have hb := (calculate_intersection.borders_least sqrt ray).1
        unfold candidate_distances at hb
        rw [List.filterMap_nil, List.append_nil] at hb
        unfold calculate_intersection
        rw [h]
        exact hb
      · right
        exact h)

/-- The hit point of a ray that starts in the closed screen rectangle and does
not point outwards at a border it starts on lies in the closed screen
rectangle. -/
theorem hit_point_in_screen (sqrt : K → K) (ray : Ray K) (obstacles : List (Circle K))
    (hx0 : 0 ≤ ray.start.x) (hx1 : ray.start.x ≤ 1200)
    (hy0 : 0 ≤ ray.start.y) (hy1 : ray.start.y ≤ 600)
    (hleft : ray.start.x = 0 → 0 ≤ ray.dir.x) (hright : ray.start.x = 1200 → ray.dir.x ≤ 0)
    (htop : ray.start.y = 0 → 0 ≤ ray.dir.y) (hbottom : ray.start.y = 600 → ray.dir.y ≤ 0) :
    (0 ≤ (ray.point (calculate_intersection sqrt ray obstacles)).x ∧
      (ray.point (calculate_intersection sqrt ray obstacles)).x ≤ 1200) ∧
    (0 ≤ (ray.point (calculate_intersection sqrt ray obstacles)).y ∧
      (ray.point (calculate_intersection sqrt ray obstacles)).y ≤ 600) := by
  have hpos := calculate_intersection.pos sqrt ray obstacles
  have hle := calculate_intersection.le_borders sqrt ray obstacles
  obtain ⟨hxn, hxp⟩ := calculate_intersection.borders_le_x ray
  obtain ⟨hyn, hyp⟩ := calculate_intersection.borders_le_y ray
  unfold Ray.point
  dsimp only
  exact ⟨coordinate_in_range _ _ _ _ hpos hx0 hx1 hleft hright
      (fun h1 h2 => hle.trans (hxn h1 h2)) (fun h1 h2 => hle.trans (hxp h1 h2)),
    coordinate_in_range _ _ _ _ hpos hy0 hy1 htop hbottom
      (fun h1 h2 => hle.trans (hyn h1 h2)) (fun h1 h2 => hle.trans (hyp h1 h2))⟩

/-- Lowering the start value of the obstacle loop by a bound `t` lowers its
result by the same bound. -/
theorem calculate_intersection.loop_min (sqrt : K → K) (ray : Ray K)
    (obstacles : List (Circle K)) (m t : K) :
    obstacles.foldl (calculate_intersection.circle sqrt ray) (min m t)
      = min (obstacles.foldl (calculate_intersection.circle sqrt ray) m) t := by
  induction obstacles generalizing m with
  | nil => rfl
  | cons c rest ih =>
    rw [List.foldl_cons, List.foldl_cons, calculate_intersection.circle_eq,
      calculate_intersection.circle_eq sqrt ray m c]
    cases near_root sqrt ray c with
    | none => exact ih m
    | some u =>
      dsimp only
      rw [min_right_comm]
      exact ih (min m u)

/-- An obstacle with a candidate `t`, inserted anywhere in the list, lowers the
result to the minimum of `t` and the result without it. -/
theorem calculate_intersection.insert_some (sqrt : K → K) (ray : Ray K)
    (pre post : List (Circle K)) (c : Circle K) (t : K) (hc : near_root sqrt ray c = some t) :
    calculate_intersection sqrt ray (pre ++ c :: post)
      = min (calculate_intersection sqrt ray (pre ++ post)) t := by
  unfold calculate_intersection
  rw [List.foldl_append, List.foldl_cons, calculate_intersection.circle_eq, hc, List.foldl_append]
  exact calculate_intersection.loop_min sqrt ray post _ t

/-! ## The solver: claims -/

/-- Claim C2: whatever the ray and the obstacles, `calculate_intersection`
returns the minimum of the candidate set of the specification (the sentinel
`1e30`, the positive border distances, the positive near roots of the obstacles
in front of the ray that its line meets): the result is one of the candidates
and no candidate is smaller. This holds in every ordered field and for every
square-root function, in particular over the reals. -/
theorem calculate_intersection_eq_least_candidate (sqrt : K → K) (ray : Ray K)
    (obstacles : List (Circle K)) :
    calculate_intersection sqrt ray obstacles ∈ candidate_distances sqrt ray obstacles ∧
      ∀ t ∈ candidate_distances sqrt ray obstacles,
        calculate_intersection sqrt ray obstacles ≤ t := by
  obtain ⟨hb1, hb2⟩ := calculate_intersection.borders_least sqrt ray
  rw [candidate_distances_eq]
  unfold calculate_intersection
  constructor
  · rcases calculate_intersection.loop_mem sqrt ray obstacles
      (calculate_intersection.borders ray) with h | h
    · rw [h]; exact List.mem_append_left _ hb1
    · exact List.mem_append_right _ h
  · intro t ht
    rcases List.mem_append.mp ht with h | h
    · exact (calculate_intersection.loop_le_init sqrt ray obstacles _).trans (hb2 t h)
    · exact calculate_intersection.loop_le_cand sqrt ray obstacles _ t h

/-- Claim C6: when every obstacle is behind the ray (`L . dir < 0` with
`L = center - origin`), `calculate_intersection` returns exactly what it returns
for the empty obstacle list, the distance computed from the borders alone. -/
theorem calculate_intersection_all_behind (sqrt : K → K) (ray : Ray K)
    (obstacles : List (Circle K))
    (hbehind : ∀ c ∈ obstacles,
      (c.pos.x - ray.start.x) * ray.dir.x + (c.pos.y - ray.start.y) * ray.dir.y < 0) :
    calculate_intersection sqrt ray obstacles = calculate_intersection sqrt ray [] := by
  unfold calculate_intersection
  rw [List.foldl_nil]
  generalize calculate_intersection.borders ray = m
  induction obstacles with
  | nil => rfl
  | cons c rest ih =>
    rw [List.foldl_cons,
      calculate_intersection.circle_behind sqrt ray m c (hbehind c (List.mem_cons_self c rest))]
    exact ih (fun d hd => hbehind d (List.mem_cons_of_mem c hd))

end SolverLemmas

/-- Over the reals, a ray of unit direction that starts strictly outside the
obstacle `c` stays strictly outside `c` up to every distance `s` that is below
the candidate of `c`, if `c` has one. -/
theorem clear_of_circle (ray : Ray ℝ) (c : Circle ℝ) (s : ℝ)
    (hunit : Vec2.length Real.sqrt ray.dir = 1) (hr : 0 < c.radius)
    (hout : c.radius < distance Real.sqrt c.pos ray.start) (hs : 0 ≤ s)
    (hlt : ∀ t, near_root Real.sqrt ray c = some t → s < t) :
    c.radius < distance Real.sqrt c.pos (ray.point s) := by
  unfold distance Vec2.length at hout ⊢
  unfold Vec2.length at hunit
  unfold Ray.point
  dsimp only at hout hunit ⊢
  rw [Real.sqrt_eq_one] at hunit
  rw [Real.lt_sqrt hr.le] at hout ⊢
  unfold near_root at hlt
  dsimp only at hlt
  set Lx := c.pos.x - ray.start.x with hLx
  set Ly := c.pos.y - ray.start.y with hLy
  set dx := ray.dir.x with hdx
  set dy := ray.dir.y with hdy
  set r := c.radius with hrdef
  have hexp : (c.pos.x - (ray.start.x + dx * s)) * (c.pos.x - (ray.start.x + dx * s))
      + (c.pos.y - (ray.start.y + dy * s)) * (c.pos.y - (ray.start.y + dy * s))
      = (Lx * Lx + Ly * Ly - (Lx * dx + Ly * dy) * (Lx * dx + Ly * dy))
        + (Lx * dx + Ly * dy - s) ^ 2 := by
    have : (c.pos.x - (ray.start.x + dx * s)) * (c.pos.x - (ray.start.x + dx * s))
      + (c.pos.y - (ray.start.y + dy * s)) * (c.pos.y - (ray.start.y + dy * s))
      = Lx * Lx + Ly * Ly - 2 * s * (Lx * dx + Ly * dy) + s ^ 2 * (dx * dx + dy * dy) := by
      rw [hLx, hLy]; ring
    rw [this, hunit]; ring
  rw [hexp]
  set tca := Lx * dx + Ly * dy with htca
  set d2 := Lx * Lx + Ly * Ly - tca * tca with hd2
  by_cases h1 : tca < 0
  · nlinarith [sq_nonneg s, mul_nonneg hs (neg_nonneg.mpr h1.le)]
  · have h1p := not_lt.mp h1
    by_cases h2 : r * r < d2
    · nlinarith [sq_nonneg (tca - s)]
    · have h2p := not_lt.mp h2
      have hthc0 : 0 ≤ Real.sqrt (r * r - d2) := Real.sqrt_nonneg _
      have hthc2 : Real.sqrt (r * r - d2) ^ 2 = r * r - d2 := Real.sq_sqrt (by linarith)
      set thc := Real.sqrt (r * r - d2) with hthc
      have htt : thc < tca := by
        by_contra hcon
        have hcon := not_lt.mp hcon
        nlinarith [mul_le_mul hcon hcon h1p hthc0]
      have hst : s < tca - thc := by
        apply hlt
        rw [if_pos ⟨h1p, h2p, by linarith⟩]
      have h3 : thc ^ 2 < (tca - s) ^ 2 :=
        pow_lt_pow_left₀ (by linarith) hthc0 (by norm_num)
      linarith

/-- Claim C1: over the reals, with all radii positive, a ray of unit direction
whose origin is strictly outside every obstacle stays strictly outside every
obstacle at every distance `0 <= s < t`, where `t` is the value
`calculate_intersection` returns: the ray never passes through an obstacle
before its reported hit. -/
theorem calculate_intersection_no_obstacle_before_hit (ray : Ray ℝ) (obstacles : List (Circle ℝ))
    (hrad : ∀ c ∈ obstacles, 0 < c.radius)
    (hunit : Vec2.length Real.sqrt ray.dir = 1)
    (hout : ∀ c ∈ obstacles, c.radius < distance Real.sqrt c.pos ray.start)
    (s : ℝ) (hs : 0 ≤ s) (hst : s < calculate_intersection Real.sqrt ray obstacles) :
    ∀ c ∈ obstacles, c.radius < distance Real.sqrt c.pos (ray.point s) := by
  intro c hc
  refine clear_of_circle ray c s hunit (hrad c hc) (hout c hc) hs ?_
  intro t ht
  have hmem : t ∈ obstacles.filterMap (near_root Real.sqrt ray) :=
    List.mem_filterMap.mpr ⟨c, hc, ht⟩
  exact lt_of_lt_of_le hst
    (calculate_intersection.loop_le_cand Real.sqrt ray obstacles _ t hmem)

/-- Witness for C1: the ray from (200,200) in direction (1,0) towards the
obstacle at (400,200) of radius 50, which it hits at distance 150; the point at
distance 100 is strictly outside the obstacle. -/
theorem calculate_intersection_no_obstacle_before_hit_witness :
    (100 : ℝ) < calculate_intersection Real.sqrt ⟨⟨200, 200⟩, ⟨1, 0⟩⟩
        [⟨⟨400, 200⟩, 50, ⟨0, 0⟩⟩] ∧
      (50 : ℝ) < distance Real.sqrt (⟨400, 200⟩ : Vec2 ℝ)
        ((⟨⟨200, 200⟩, ⟨1, 0⟩⟩ : Ray ℝ).point 100) := by
  have h50 : Real.sqrt 2500 = 50 := by
    rw [show (2500 : ℝ) = 50 * 50 by norm_num]
    exact Real.sqrt_mul_self (by norm_num)
  have h200 : Real.sqrt 40000 = 200 := by
    rw [show (40000 : ℝ) = 200 * 200 by norm_num]
    exact Real.sqrt_mul_self (by norm_num)
  have hst : (100 : ℝ) < calculate_intersection Real.sqrt ⟨⟨200, 200⟩, ⟨1, 0⟩⟩
      [⟨⟨400, 200⟩, 50, ⟨0, 0⟩⟩] := by
    norm_num [calculate_intersection, calculate_intersection.borders,
      calculate_intersection.circle, SCREEN_WIDTH, SCREEN_HEIGHT, h50]
  exact ⟨hst, calculate_intersection_no_obstacle_before_hit ⟨⟨200, 200⟩, ⟨1, 0⟩⟩
    [⟨⟨400, 200⟩, 50, ⟨0, 0⟩⟩]
    (by intro c hc; rw [List.mem_singleton] at hc; subst hc; norm_num)
    (by norm_num [Vec2.length])
    (by intro c hc; rw [List.mem_singleton] at hc; subst hc
        norm_num [distance, Vec2.length, h200])
    100 (by norm_num) hst ⟨⟨400, 200⟩, 50, ⟨0, 0⟩⟩ (List.mem_singleton_self _)⟩

/-- Over the reals, every point of the closed screen rectangle is at most as
far from a point `o` as the farthest screen corner. -/
theorem distance_le_farthest_corner (o q : Vec2 ℝ)
    (hx0 : 0 ≤ q.x) (hx1 : q.x ≤ 1200) (hy0 : 0 ≤ q.y) (hy1 : q.y ≤ 600) :
    distance Real.sqrt q o ≤ farthest_corner_distance Real.sqrt o := by
  unfold farthest_corner_distance distance Vec2.length
  dsimp only
  have hx : (q.x - o.x) * (q.x - o.x) ≤ (0 - o.x) * (0 - o.x) ∨
      (q.x - o.x) * (q.x - o.x) ≤ (1200 - o.x) * (1200 - o.x) := by
    rcases le_total 600 o.x with h | h
    · left; nlinarith
    · right; nlinarith
  have hy : (q.y - o.y) * (q.y - o.y) ≤ (0 - o.y) * (0 - o.y) ∨
      (q.y - o.y) * (q.y - o.y) ≤ (600 - o.y) * (600 - o.y) := by
    rcases le_total 300 o.y with h | h
    · left; nlinarith
    · right; nlinarith
  rcases hx with hx | hx <;> rcases hy with hy | hy
  · exact le_max_of_le_left (le_max_of_le_left (Real.sqrt_le_sqrt (add_le_add hx hy)))
  · exact le_max_of_le_right (le_max_of_le_left (Real.sqrt_le_sqrt (add_le_add hx hy)))
  · exact le_max_of_le_left (le_max_of_le_right (Real.sqrt_le_sqrt (add_le_add hx hy)))
  · exact le_max_of_le_right (le_max_of_le_right (Real.sqrt_le_sqrt (add_le_add hx hy)))

/-- Over the reals, the point at distance `t >= 0` along a ray of unit
direction is at distance `t` from the origin of the ray. -/
theorem distance_point_start (ray : Ray ℝ) (t : ℝ) (ht : 0 ≤ t)
    (hunit : Vec2.length Real.sqrt ray.dir = 1) :
    distance Real.sqrt (ray.point t) ray.start = t := by
  unfold Vec2.length at hunit
  rw [Real.sqrt_eq_one] at hunit
  unfold distance Vec2.length Ray.point
  dsimp only
  have : (ray.start.x + ray.dir.x * t - ray.start.x) * (ray.start.x + ray.dir.x * t - ray.start.x)
      + (ray.start.y + ray.dir.y * t - ray.start.y) * (ray.start.y + ray.dir.y * t - ray.start.y)
      = t ^ 2 := by
    have : (ray.start.x + ray.dir.x * t - ray.start.x)
          * (ray.start.x + ray.dir.x * t - ray.start.x)
        + (ray.start.y + ray.dir.y * t - ray.start.y)
          * (ray.start.y + ray.dir.y * t - ray.start.y)
        = t ^ 2 * (ray.dir.x * ray.dir.x + ray.dir.y * ray.dir.y) := by ring
    rw [this, hunit, mul_one]
  rw [this]
  exact Real.sqrt_sq ht

/-- Claim C3, counterexamples: the bound by the farthest screen corner fails
for a direction that is not of unit length (from the screen center (600,300)
in direction (1/2,0) the result is 1200, the farthest corner is nearer than
that), and for a ray that leaves the screen at its origin (from (0,300) in the
unit direction (-1,0) no border is ahead and the result is the sentinel
`1e30`). Both directions are non-zero. -/
theorem calculate_intersection_corner_bound_counterexample :
    ((⟨1 / 2, 0⟩ : Vec2 ℝ).x ≠ 0 ∧
      ¬ calculate_intersection Real.sqrt ⟨⟨600, 300⟩, ⟨1 / 2, 0⟩⟩ []
        ≤ farthest_corner_distance Real.sqrt ⟨600, 300⟩) ∧
    ((⟨-1, 0⟩ : Vec2 ℝ).x ≠ 0 ∧ Vec2.length Real.sqrt ⟨-1, 0⟩ = 1 ∧
      ¬ calculate_intersection Real.sqrt ⟨⟨0, 300⟩, ⟨-1, 0⟩⟩ []
        ≤ farthest_corner_distance Real.sqrt ⟨0, 300⟩) := by
  have h1 : calculate_intersection Real.sqrt ⟨⟨600, 300⟩, ⟨1 / 2, 0⟩⟩ [] = 1200 := by
    norm_num [calculate_intersection, calculate_intersection.borders, SCREEN_WIDTH,
      SCREEN_HEIGHT]
  have h2 : calculate_intersection Real.sqrt ⟨⟨0, 300⟩, ⟨-1, 0⟩⟩ [] = 10 ^ 30 := by
    norm_num [calculate_intersection, calculate_intersection.borders, SCREEN_WIDTH,
      SCREEN_HEIGHT]
  have hs : ∀ x : ℝ, x < 1000 ^ 2 → Real.sqrt x < 1000 := fun x hx =>
    (Real.sqrt_lt' (by norm_num)).mpr hx
  have hs2 : ∀ x : ℝ, x < 2000 ^ 2 → Real.sqrt x < 2000 := fun x hx =>
    (Real.sqrt_lt' (by norm_num)).mpr hx
  refine ⟨⟨by norm_num, ?_⟩, by norm_num, by norm_num [Vec2.length], ?_⟩
  · rw [h1, not_le]
    have : farthest_corner_distance Real.sqrt (⟨600, 300⟩ : Vec2 ℝ) < 1000 := by
      unfold farthest_corner_distance distance Vec2.length
      dsimp only
      refine max_lt (max_lt ?_ ?_) (max_lt ?_ ?_) <;> apply hs <;> norm_num
    linarith
  · rw [h2, not_le]
    have : farthest_corner_distance Real.sqrt (⟨0, 300⟩ : Vec2 ℝ) < 2000 := by
      unfold farthest_corner_distance distance Vec2.length
      dsimp only
      refine max_lt (max_lt ?_ ?_) (max_lt ?_ ?_) <;> apply hs2 <;> norm_num
    linarith

/-- Claim C3, amended: over the reals, for a ray of unit direction whose origin
lies in the closed screen rectangle and whose direction does not point outwards
at a border the origin lies on (in particular for every origin strictly inside
the screen), `calculate_intersection` returns a strictly positive value that is
at most the distance from the origin to the farthest screen corner. -/
theorem calculate_intersection_corner_bound (ray : Ray ℝ) (obstacles : List (Circle ℝ))
    (hunit : Vec2.length Real.sqrt ray.dir = 1)
    (hx0 : 0 ≤ ray.start.x) (hx1 : ray.start.x ≤ 1200)
    (hy0 : 0 ≤ ray.start.y) (hy1 : ray.start.y ≤ 600)
    (hleft : ray.start.x = 0 → 0 ≤ ray.dir.x) (hright : ray.start.x = 1200 → ray.dir.x ≤ 0)
    (htop : ray.start.y = 0 → 0 ≤ ray.dir.y) (hbottom : ray.start.y = 600 → ray.dir.y ≤ 0) :
    0 < calculate_intersection Real.sqrt ray obstacles ∧
      calculate_intersection Real.sqrt ray obstacles
        ≤ farthest_corner_distance Real.sqrt ray.start := by
  have hpos := calculate_intersection.pos Real.sqrt ray obstacles
  refine ⟨hpos, ?_⟩
  obtain ⟨⟨h1, h2⟩, h3, h4⟩ := hit_point_in_screen Real.sqrt ray obstacles hx0 hx1 hy0 hy1
    hleft hright htop hbottom
  calc calculate_intersection Real.sqrt ray obstacles
      = distance Real.sqrt (ray.point (calculate_intersection Real.sqrt ray obstacles))
          ray.start := (distance_point_start ray _ hpos.le hunit).symm
    _ ≤ farthest_corner_distance Real.sqrt ray.start :=
        distance_le_farthest_corner ray.start _ h1 h2 h3 h4

/-- Witness for C3: the light of the initial scene at (200,200), the ray in
direction (1,0), the three obstacles of the initial scene. -/
theorem calculate_intersection_corner_bound_witness :
    0 < calculate_intersection Real.sqrt (⟨⟨200, 200⟩, ⟨1, 0⟩⟩ : Ray ℝ)
        [⟨⟨550, 300⟩, 80, ⟨0, 150⟩⟩, ⟨⟨200, 100⟩, 30, ⟨0, 0⟩⟩, ⟨⟨900, 450⟩, 60, ⟨0, 0⟩⟩] ∧
      calculate_intersection Real.sqrt (⟨⟨200, 200⟩, ⟨1, 0⟩⟩ : Ray ℝ)
        [⟨⟨550, 300⟩, 80, ⟨0, 150⟩⟩, ⟨⟨200, 100⟩, 30, ⟨0, 0⟩⟩, ⟨⟨900, 450⟩, 60, ⟨0, 0⟩⟩]
        ≤ farthest_corner_distance Real.sqrt ⟨200, 200⟩ :=
  calculate_intersection_corner_bound ⟨⟨200, 200⟩, ⟨1, 0⟩⟩ _ (by norm_num [Vec2.length])
    (by norm_num) (by norm_num) (by norm_num) (by norm_num) (by norm_num) (by norm_num)
    (by norm_num) (by norm_num)

/-- Claim C4, counterexample: the ray from (0,300), a light position on the
left screen edge, in the unit direction (-1,0) has no border ahead;
`calculate_intersection` returns the sentinel `1e30` and the hit point has a
negative `x`, outside the screen rectangle. -/
theorem hit_point_in_screen_counterexample :
    Vec2.length Real.sqrt (⟨-1, 0⟩ : Vec2 ℝ) = 1 ∧
    ((0 : ℝ) ≤ 0 ∧ (0 : ℝ) < 1200 ∧ (0 : ℝ) ≤ 300 ∧ (300 : ℝ) < 600) ∧
    ((⟨⟨0, 300⟩, ⟨-1, 0⟩⟩ : Ray ℝ).point
      (calculate_intersection Real.sqrt ⟨⟨0, 300⟩, ⟨-1, 0⟩⟩ [])).x < 0 := by
  refine ⟨by norm_num [Vec2.length], by norm_num, ?_⟩
  norm_num [Ray.point, calculate_intersection, calculate_intersection.borders, SCREEN_WIDTH,
    SCREEN_HEIGHT]

/-- Claim C4, amended: for a ray whose origin lies in the screen bounds
`[0,1200) x [0,600)` and whose direction does not point off the screen at an
edge the origin lies on (`dir.x >= 0` when `start.x = 0`, `dir.y >= 0` when
`start.y = 0`; nothing is asked of an origin strictly inside), and for every
obstacle list, the hit point `start + dir * calculate_intersection(ray, obstacles)`
lies in the screen rectangle `[0,1200] x [0,600]`. The direction need not be of
unit length. -/
theorem calculate_intersection_hit_in_screen {K : Type} [LinearOrderedField K] (sqrt : K → K)
    (ray : Ray K) (obstacles : List (Circle K))
    (hx0 : 0 ≤ ray.start.x) (hx1 : ray.start.x < 1200)
    (hy0 : 0 ≤ ray.start.y) (hy1 : ray.start.y < 600)
    (hleft : ray.start.x = 0 → 0 ≤ ray.dir.x) (htop : ray.start.y = 0 → 0 ≤ ray.dir.y) :
    (0 ≤ (ray.point (calculate_intersection sqrt ray obstacles)).x ∧
      (ray.point (calculate_intersection sqrt ray obstacles)).x ≤ 1200) ∧
    (0 ≤ (ray.point (calculate_intersection sqrt ray obstacles)).y ∧
      (ray.point (calculate_intersection sqrt ray obstacles)).y ≤ 600) :=
  hit_point_in_screen sqrt ray obstacles hx0 hx1.le hy0 hy1.le hleft
    (fun h => absurd h hx1.ne) htop (fun h => absurd h hy1.ne)

/-- Witness for C4: a light on the left screen edge at (0,300) with the ray
pointing into the screen, and the moving obstacle of the initial scene. -/
theorem calculate_intersection_hit_in_screen_witness :
    (0 ≤ ((⟨⟨0, 300⟩, ⟨1, 0⟩⟩ : Ray ℝ).point (calculate_intersection Real.sqrt
        ⟨⟨0, 300⟩, ⟨1, 0⟩⟩ [⟨⟨550, 300⟩, 80, ⟨0, 150⟩⟩])).x ∧
      ((⟨⟨0, 300⟩, ⟨1, 0⟩⟩ : Ray ℝ).point (calculate_intersection Real.sqrt
        ⟨⟨0, 300⟩, ⟨1, 0⟩⟩ [⟨⟨550, 300⟩, 80, ⟨0, 150⟩⟩])).x ≤ 1200) ∧
    (0 ≤ ((⟨⟨0, 300⟩, ⟨1, 0⟩⟩ : Ray ℝ).point (calculate_intersection Real.sqrt
        ⟨⟨0, 300⟩, ⟨1, 0⟩⟩ [⟨⟨550, 300⟩, 80, ⟨0, 150⟩⟩])).y ∧
      ((⟨⟨0, 300⟩, ⟨1, 0⟩⟩ : Ray ℝ).point (calculate_intersection Real.sqrt
        ⟨⟨0, 300⟩, ⟨1, 0⟩⟩ [⟨⟨550, 300⟩, 80, ⟨0, 150⟩⟩])).y ≤ 600) :=
  calculate_intersection_hit_in_screen Real.sqrt ⟨⟨0, 300⟩, ⟨1, 0⟩⟩ _ (by norm_num)
    (by norm_num) (by norm_num) (by norm_num) (by norm_num) (by norm_num)

/-- Over the reals, the candidate of an obstacle of positive radius for a ray
that starts strictly outside it and is aimed at its center is the distance to
the center minus the radius. -/
theorem near_root_aimed_at_center (ray : Ray ℝ) (c : Circle ℝ) (hr : 0 < c.radius)
    (hout : c.radius < distance Real.sqrt c.pos ray.start)
    (hdirx : ray.dir.x = (c.pos.x - ray.start.x) / distance Real.sqrt c.pos ray.start)
    (hdiry : ray.dir.y = (c.pos.y - ray.start.y) / distance Real.sqrt c.pos ray.start) :
    near_root Real.sqrt ray c = some (distance Real.sqrt c.pos ray.start - c.radius) := by
  unfold distance Vec2.length at hout hdirx hdiry ⊢
  dsimp only at hout hdirx hdiry ⊢
  set Lx := c.pos.x - ray.start.x with hLx
  set Ly := c.pos.y - ray.start.y with hLy
  set D := Real.sqrt (Lx * Lx + Ly * Ly) with hD
  have hDpos : 0 < D := lt_trans hr hout
  have hD2 : D * D = Lx * Lx + Ly * Ly :=
    Real.mul_self_sqrt (add_nonneg (mul_self_nonneg Lx) (mul_self_nonneg Ly))
  have htca : Lx * ray.dir.x + Ly * ray.dir.y = D := by
    rw [hdirx, hdiry]
    field_simp
    linarith
  unfold near_root
  dsimp only
  rw [← hLx, ← hLy, htca]
  have hd2 : Lx * Lx + Ly * Ly - D * D = 0 := by linarith
  rw [hd2, sub_zero, Real.sqrt_mul_self hr.le]
  rw [if_pos ⟨hDpos.le, mul_self_nonneg _, by linarith⟩]

/-- Claim C5, counterexample: from (200,200) the ray aimed at the center of the
obstacle at (800,200) of radius 50 has unit direction (1,0); the origin is
strictly outside both obstacles of the list, but the obstacle at (400,200) of
radius 50 stands in between, and `calculate_intersection` returns 150, not
`|center - origin| - radius = 550`. -/
theorem calculate_intersection_aimed_at_center_counterexample :
    (∀ c ∈ ([⟨⟨400, 200⟩, 50, ⟨0, 0⟩⟩, ⟨⟨800, 200⟩, 50, ⟨0, 0⟩⟩] : List (Circle ℝ)),
      c.radius < distance Real.sqrt c.pos ⟨200, 200⟩) ∧
    (1 : ℝ) = (800 - 200) / distance Real.sqrt ⟨800, 200⟩ ⟨200, 200⟩ ∧
    (0 : ℝ) = (200 - 200) / distance Real.sqrt ⟨800, 200⟩ ⟨200, 200⟩ ∧
    calculate_intersection Real.sqrt ⟨⟨200, 200⟩, ⟨1, 0⟩⟩
      [⟨⟨400, 200⟩, 50, ⟨0, 0⟩⟩, ⟨⟨800, 200⟩, 50, ⟨0, 0⟩⟩]
      ≠ distance Real.sqrt ⟨800, 200⟩ ⟨200, 200⟩ - 50 := by
  have h50 : Real.sqrt 2500 = 50 := by
    rw [show (2500 : ℝ) = 50 * 50 by norm_num]
    exact Real.sqrt_mul_self (by norm_num)
  have h200 : Real.sqrt (200 * 200) = 200 := Real.sqrt_mul_self (by norm_num)
  have h600 : Real.sqrt (600 * 600) = 600 := Real.sqrt_mul_self (by norm_num)
  have hd1 : distance Real.sqrt (⟨400, 200⟩ : Vec2 ℝ) ⟨200, 200⟩ = 200 := by
    unfold distance Vec2.length
    dsimp only
    rw [show ((400 : ℝ) - 200) * (400 - 200) + (200 - 200) * (200 - 200) = 200 * 200 by norm_num]
    exact h200
  have hd2 : distance Real.sqrt (⟨800, 200⟩ : Vec2 ℝ) ⟨200, 200⟩ = 600 := by
    unfold distance Vec2.length
    dsimp only
    rw [show ((800 : ℝ) - 200) * (800 - 200) + (200 - 200) * (200 - 200) = 600 * 600 by norm_num]
    exact h600
  have hcalc : calculate_intersection Real.sqrt ⟨⟨200, 200⟩, ⟨1, 0⟩⟩
      [⟨⟨400, 200⟩, 50, ⟨0, 0⟩⟩, ⟨⟨800, 200⟩, 50, ⟨0, 0⟩⟩] = 150 := by
    norm_num [calculate_intersection, calculate_intersection.borders,
      calculate_intersection.circle, SCREEN_WIDTH, SCREEN_HEIGHT, h50]
  refine ⟨?_, ?_, ?_, ?_⟩
  · intro c hc
    rcases List.mem_cons.mp hc with h | h
    · subst h; rw [hd1]; norm_num
    · rw [List.mem_singleton] at h
      subst h; rw [hd2]; norm_num
  · rw [hd2]; norm_num
  · rw [hd2]; norm_num
  · rw [hcalc, hd2]; norm_num

/-- Claim C5, amended: over the reals, for a ray whose origin lies strictly
outside an obstacle `c` of positive radius and whose direction is the unit
vector from the origin to the center of `c`, `calculate_intersection` returns
the minimum of `|c.center - origin| - c.radius` and the value it returns for
the list without `c`: a nearer border or a nearer obstacle wins, otherwise the
result is `|c.center - origin| - c.radius`. -/
theorem calculate_intersection_aimed_at_center (ray : Ray ℝ) (pre post : List (Circle ℝ))
    (c : Circle ℝ) (hr : 0 < c.radius)
    (hout : c.radius < distance Real.sqrt c.pos ray.start)
    (hdirx : ray.dir.x = (c.pos.x - ray.start.x) / distance Real.sqrt c.pos ray.start)
    (hdiry : ray.dir.y = (c.pos.y - ray.start.y) / distance Real.sqrt c.pos ray.start) :
    calculate_intersection Real.sqrt ray (pre ++ c :: post)
      = min (calculate_intersection Real.sqrt ray (pre ++ post))
          (distance Real.sqrt c.pos ray.start - c.radius) :=
  calculate_intersection.insert_some Real.sqrt ray pre post c _
    (near_root_aimed_at_center ray c hr hout hdirx hdiry)

/-- Witness for C5: the ray from (200,200) aimed at the center of the single
obstacle at (400,200) of radius 50. -/
theorem calculate_intersection_aimed_at_center_witness :
    calculate_intersection Real.sqrt (⟨⟨200, 200⟩, ⟨1, 0⟩⟩ : Ray ℝ)
        ([] ++ (⟨⟨400, 200⟩, 50, ⟨0, 0⟩⟩ : Circle ℝ) :: [])
      = min (calculate_intersection Real.sqrt (⟨⟨200, 200⟩, ⟨1, 0⟩⟩ : Ray ℝ) ([] ++ []))
          (distance Real.sqrt (⟨400, 200⟩ : Vec2 ℝ) ⟨200, 200⟩ - 50) := by
  have h200 : Real.sqrt 40000 = 200 := by
    rw [show (40000 : ℝ) = 200 * 200 by norm_num]
    exact Real.sqrt_mul_self (by norm_num)
  exact calculate_intersection_aimed_at_center ⟨⟨200, 200⟩, ⟨1, 0⟩⟩ [] []
    ⟨⟨400, 200⟩, 50, ⟨0, 0⟩⟩ (by norm_num)
    (by norm_num [distance, Vec2.length, h200])
    (by norm_num [distance, Vec2.length, h200])
    (by norm_num [distance, Vec2.length, h200])

/-- Witness for C6: the ray from (200,200) in direction (-1,0) and the moving
obstacle of the initial scene at (550,300), which is behind it. -/
theorem calculate_intersection_all_behind_witness :
    calculate_intersection Real.sqrt (⟨⟨200, 200⟩, ⟨-1, 0⟩⟩ : Ray ℝ) [⟨⟨550, 300⟩, 80, ⟨0, 150⟩⟩]
      = calculate_intersection Real.sqrt (⟨⟨200, 200⟩, ⟨-1, 0⟩⟩ : Ray ℝ) [] :=
  calculate_intersection_all_behind Real.sqrt ⟨⟨200, 200⟩, ⟨-1, 0⟩⟩
    [⟨⟨550, 300⟩, 80, ⟨0, 150⟩⟩] (by
      intro c hc
      rw [List.mem_singleton] at hc
      subst hc
      norm_num)

/-- Claim C7: on the 1200 x 600 screen the ray from (200,200) in direction
(1,0) misses the obstacle at (550,300) of radius 80 and travels 1000 to the
border `x = 1200`; with the obstacle at (400,200) of radius 50 it travels 150. -/
theorem calculate_intersection_scenario (v : Vec2 ℝ) :
    calculate_intersection Real.sqrt ⟨⟨200, 200⟩, ⟨1, 0⟩⟩ [⟨⟨550, 300⟩, 80, v⟩] = 1000 ∧
      calculate_intersection Real.sqrt ⟨⟨200, 200⟩, ⟨1, 0⟩⟩ [⟨⟨400, 200⟩, 50, v⟩] = 150 := by
  have h50 : Real.sqrt 2500 = 50 := by
    rw [show (2500 : ℝ) = 50 ^ 2 by norm_num]
    exact Real.sqrt_sq (by norm_num)
  constructor
  · norm_num [calculate_intersection, calculate_intersection.borders,
      calculate_intersection.circle, SCREEN_WIDTH, SCREEN_HEIGHT]
  · norm_num [calculate_intersection, calculate_intersection.borders,
      calculate_intersection.circle, SCREEN_WIDTH, SCREEN_HEIGHT, h50]

/-! ## Physics: claims -/

/-- Claim C8, the code at a failing input: the moving obstacle of the initial
scene, center (550,300), radius 80, velocity (0,150), ticked with
`deltaTime = 1.5` and then `deltaTime = 0.01`. Before the first tick its lower
edge is at 380, on the screen. The first tick moves the lower edge to 605 and
negates `velocity.y`. Before the second tick the edge is still outside
`[0,600]`; the second tick moves it to 603.5 and negates `velocity.y` again,
back to 150, away from the screen. -/
theorem bounce_flips_twice_for_one_crossing :
    let c0 : Circle ℚ := ⟨⟨550, 300⟩, 80, ⟨0, 150⟩⟩
    let c1 := bounce_ticks c0 [3 / 2]
    let c2 := bounce_ticks c0 [3 / 2, 1 / 100]
    (0 ≤ c0.pos.y - c0.radius ∧ c0.pos.y + c0.radius ≤ 600) ∧
    (c1.pos.y + c1.radius = 605 ∧ c1.velocity.y = -150) ∧
    (c2.pos.y + c2.radius = 1207 / 2 ∧ c2.velocity.y = 150) := by
  norm_num [bounce_ticks, bounce, SCREEN_HEIGHT]

/-- After the long tick of `bounce_flips_twice_for_one_crossing`, ticks of
`deltaTime = 0.01` never bring the obstacle back: it stays with its lower edge
below the screen, at `pos.y = 525` moving up the screen or at `pos.y = 523.5`
moving down, and `velocity.y` is negated on every tick. -/
theorem bounce_stuck_below_screen (n : Nat) :
    ((bounce_ticks (⟨⟨550, 300⟩, 80, ⟨0, 150⟩⟩ : Circle ℚ)
          (3 / 2 :: List.replicate n (1 / 100))).radius = 80) ∧
      (((bounce_ticks (⟨⟨550, 300⟩, 80, ⟨0, 150⟩⟩ : Circle ℚ)
            (3 / 2 :: List.replicate n (1 / 100))).pos.y = 525 ∧
          (bounce_ticks (⟨⟨550, 300⟩, 80, ⟨0, 150⟩⟩ : Circle ℚ)
            (3 / 2 :: List.replicate n (1 / 100))).velocity.y = -150) ∨
        ((bounce_ticks (⟨⟨550, 300⟩, 80, ⟨0, 150⟩⟩ : Circle ℚ)
            (3 / 2 :: List.replicate n (1 / 100))).pos.y = 1047 / 2 ∧
          (bounce_ticks (⟨⟨550, 300⟩, 80, ⟨0, 150⟩⟩ : Circle ℚ)
            (3 / 2 :: List.replicate n (1 / 100))).velocity.y = 150)) := by
  induction n with
  | zero => norm_num [bounce_ticks, bounce, SCREEN_HEIGHT]
  | succ k ih =>
    have hsplit : (3 / 2 : ℚ) :: List.replicate (k + 1) (1 / 100)
        = (3 / 2 :: List.replicate k (1 / 100)) ++ [1 / 100] := by
      rw [List.replicate_succ', List.cons_append]
    unfold bounce_ticks at ih ⊢
    rw [hsplit, List.foldl_append]
    generalize List.foldl bounce (⟨⟨550, 300⟩, 80, ⟨0, 150⟩⟩ : Circle ℚ)
      (3 / 2 :: List.replicate k (1 / 100)) = c at ih
    obtain ⟨hr, h | h⟩ := ih
    · obtain ⟨hp, hv⟩ := h
      norm_num [bounce, SCREEN_HEIGHT, hr, hp, hv]
    · obtain ⟨hp, hv⟩ := h
      norm_num [bounce, SCREEN_HEIGHT, hr, hp, hv]

/-! ## Line drawing -/

/-- The loop of `draw_line`, `p` steps in `x` and `q` steps in `y` away from
the end point with the error term that belongs to that position: every pixel it
writes is at most `p` steps in `x` and `q` steps in `y` away from the end
point, and more than `p + q` iterations reach the `break`. -/
theorem draw_line.loop_spec (x1 y1 a b sx sy : Int) (hsx : sx ≠ 0) (hsy : sy ≠ 0) :
    ∀ (fuel : Nat) (x0 y0 err p q : Int), 0 ≤ p → p ≤ a → 0 ≤ q → q ≤ b →
      x0 = x1 - sx * p → y0 = y1 - sy * q → err = a - b + p * b - q * a →
      (∀ px ∈ (draw_line.loop x1 y1 a (-b) sx sy fuel x0 y0 err).1,
        ∃ p2 q2 : Int, 0 ≤ p2 ∧ p2 ≤ p ∧ 0 ≤ q2 ∧ q2 ≤ q ∧ px = (x1 - sx * p2, y1 - sy * q2)) ∧
      (p + q < fuel → (draw_line.loop x1 y1 a (-b) sx sy fuel x0 y0 err).2 = true) := by
  intro fuel
  induction fuel with
  | zero =>
    intro x0 y0 err p q hp0 _ hq0 _ _ _ _
    refine ⟨by simp [draw_line.loop], fun h => ?_⟩
    have : (0 : Int) ≤ p + q := add_nonneg hp0 hq0
    simp at h
    omega
  | succ n ih =>
    intro x0 y0 err p q hp0 hpa hq0 hqb hx hy herr
    unfold draw_line.loop
    have hend : (x0 = x1 ∧ y0 = y1) ↔ (p = 0 ∧ q = 0) := by
      rw [hx, hy]
      constructor
      · rintro ⟨h1, h2⟩
        have h1 : sx * p = 0 := by linarith
        have h2 : sy * q = 0 := by linarith
        exact ⟨(mul_eq_zero.mp h1).resolve_left hsx, (mul_eq_zero.mp h2).resolve_left hsy⟩
      · rintro ⟨h1, h2⟩
        rw [h1, h2]; simp
    by_cases hfin : x0 = x1 ∧ y0 = y1
    · rw [if_pos hfin]
      refine ⟨fun px hpx => ?_, fun _ => rfl⟩
      rw [List.mem_singleton] at hpx
      exact ⟨p, q, hp0, le_refl p, hq0, le_refl q, by rw [hpx, hx, hy]⟩
    · rw [if_neg hfin]
      have hpq : ¬ (p = 0 ∧ q = 0) := fun h => hfin (hend.mpr h)
      dsimp only
      have hpb : 0 ≤ p * b := mul_nonneg hp0 (le_trans hq0 hqb)
      have hqa : 0 ≤ q * a := mul_nonneg hq0 (le_trans hp0 hpa)
      by_cases hxs : 2 * err ≥ -b <;> by_cases hys : 2 * err ≤ a
      · -- both steps
        simp only [hxs, hys, if_true]
        have hp1 : 1 ≤ p := by
          by_contra hcon
          have hp : p = 0 := by omega
          have hq1 : 1 ≤ q := by
            by_contra hq; exact hpq ⟨hp, by omega⟩
          subst hp
          nlinarith
        have hq1 : 1 ≤ q := by
          by_contra hcon
          have hq : q = 0 := by omega
          subst hq
          nlinarith
        obtain ⟨ih1, ih2⟩ := ih (x0 + sx) (y0 + sy) (err + -b + a) (p - 1) (q - 1)
          (by omega) (by omega) (by omega) (by omega) (by rw [hx]; ring) (by rw [hy]; ring)
          (by rw [herr]; ring)
        refine ⟨fun px hpx => ?_, fun h => ih2 (by omega)⟩
        rcases List.mem_cons.mp hpx with h | h
        · exact ⟨p, q, hp0, le_refl p, hq0, le_refl q, by rw [h, hx, hy]⟩
        · obtain ⟨p2, q2, h1, h2, h3, h4, h5⟩ := ih1 px h
          exact ⟨p2, q2, h1, by omega, h3, by omega, h5⟩
      · -- x step only
        simp only [hxs, hys, if_true, if_false]
        have hp1 : 1 ≤ p := by
          by_contra hcon
          have hp : p = 0 := by omega
          have hq1 : 1 ≤ q := by
            by_contra hq; exact hpq ⟨hp, by omega⟩
          subst hp
          nlinarith
        obtain ⟨ih1, ih2⟩ := ih (x0 + sx) y0 (err + -b) (p - 1) q
          (by omega) (by omega) hq0 hqb (by rw [hx]; ring) hy (by rw [herr]; ring)
        refine ⟨fun px hpx => ?_, fun h => ih2 (by omega)⟩
        rcases List.mem_cons.mp hpx with h | h
        · exact ⟨p, q, hp0, le_refl p, hq0, le_refl q, by rw [h, hx, hy]⟩
        · obtain ⟨p2, q2, h1, h2, h3, h4, h5⟩ := ih1 px h
          exact ⟨p2, q2, h1, by omega, h3, h4, h5⟩
      · -- y step only
        simp only [hxs, hys, if_true, if_false]
        have hq1 : 1 ≤ q := by
          by_contra hcon
          have hq : q = 0 := by omega
          have hp1 : 1 ≤ p := by
            by_contra hp; exact hpq ⟨by omega, hq⟩
          subst hq
          nlinarith
        obtain ⟨ih1, ih2⟩ := ih x0 (y0 + sy) (err + a) p (q - 1)
          hp0 hpa (by omega) (by omega) hx (by rw [hy]; ring) (by rw [herr]; ring)
        refine ⟨fun px hpx => ?_, fun h => ih2 (by omega)⟩
        rcases List.mem_cons.mp hpx with h | h
        · exact ⟨p, q, hp0, le_refl p, hq0, le_refl q, by rw [h, hx, hy]⟩
        · obtain ⟨p2, q2, h1, h2, h3, h4, h5⟩ := ih1 px h
          exact ⟨p2, q2, h1, h2, h3, by omega, h5⟩
      · -- no step: impossible
        exfalso
        have : 0 ≤ a := le_trans hp0 hpa
        have : 0 ≤ b := le_trans hq0 hqb
        omega


/-- The lambda `clamp` returns a value between its bounds. -/
theorem clamp_bounds (val lo hi : Int) (h : lo ≤ hi) :
    lo ≤ clamp val lo hi ∧ clamp val lo hi ≤ hi := by
  unfold clamp
  split_ifs <;> omega

/-- The start state of the loop of `draw_line` for the clamped end points
`(a0, b0)` and `(a1, b1)`: every pixel the loop writes lies in the bounding box
of the two points, and more than `|a1 - a0| + |b1 - b0|` iterations reach the
`break`. -/
theorem draw_line.loop_box (a0 b0 a1 b1 : Int) (fuel : Nat) :
    (∀ px ∈ (draw_line.loop a1 b1 |a1 - a0| (-|b1 - b0|) (if a0 < a1 then 1 else -1)
        (if b0 < b1 then 1 else -1) fuel a0 b0 (|a1 - a0| + -|b1 - b0|)).1,
      (min a0 a1 ≤ px.1 ∧ px.1 ≤ max a0 a1) ∧ (min b0 b1 ≤ px.2 ∧ px.2 ≤ max b0 b1)) ∧
    (|a1 - a0| + |b1 - b0| < fuel →
      (draw_line.loop a1 b1 |a1 - a0| (-|b1 - b0|) (if a0 < a1 then 1 else -1)
        (if b0 < b1 then 1 else -1) fuel a0 b0 (|a1 - a0| + -|b1 - b0|)).2 = true) := by
  have hsx : (if a0 < a1 then (1 : Int) else -1) ≠ 0 := by split_ifs <;> decide
  have hsy : (if b0 < b1 then (1 : Int) else -1) ≠ 0 := by split_ifs <;> decide
  have hx : a0 = a1 - (if a0 < a1 then (1 : Int) else -1) * |a1 - a0| := by
    split_ifs with h
    · rw [abs_of_pos (by omega)]; ring
    · rw [abs_of_nonpos (by omega)]; ring
  have hy : b0 = b1 - (if b0 < b1 then (1 : Int) else -1) * |b1 - b0| := by
    split_ifs with h
    · rw [abs_of_pos (by omega)]; ring
    · rw [abs_of_nonpos (by omega)]; ring
  obtain ⟨h1, h2⟩ := draw_line.loop_spec a1 b1 |a1 - a0| |b1 - b0| _ _ hsx hsy fuel a0 b0
    (|a1 - a0| + -|b1 - b0|) |a1 - a0| |b1 - b0| (abs_nonneg _) (le_refl _) (abs_nonneg _)
    (le_refl _) hx hy (by ring)
  refine ⟨fun px hpx => ?_, h2⟩
  obtain ⟨p2, q2, hp0, hp1, hq0, hq1, rfl⟩ := h1 px hpx
  dsimp only
  constructor
  · by_cases h : a0 < a1
    · rw [if_pos h]
      rw [abs_of_pos (by omega)] at hp1
      rw [min_eq_left h.le, max_eq_right h.le]
      constructor <;> omega
    · rw [if_neg h]
      rw [abs_of_nonpos (by omega)] at hp1
      rw [min_eq_right (not_lt.mp h), max_eq_left (not_lt.mp h)]
      constructor <;> omega
  · by_cases h : b0 < b1
    · rw [if_pos h]
      rw [abs_of_pos (by omega)] at hq1
      rw [min_eq_left h.le, max_eq_right h.le]
      constructor <;> omega
    · rw [if_neg h]
      rw [abs_of_nonpos (by omega)] at hq1
      rw [min_eq_right (not_lt.mp h), max_eq_left (not_lt.mp h)]
      constructor <;> omega

/-- The loop of `draw_line` reaches its `break` within `SCREEN_WIDTH + SCREEN_HEIGHT`
iterations, whatever the arguments. -/
theorem draw_line.run_halts (x0 y0 x1 y1 : Int) :
    (draw_line.run (SCREEN_WIDTH + SCREEN_HEIGHT).toNat x0 y0 x1 y1).2 = true := by
  unfold draw_line.run
  dsimp only
  apply (draw_line.loop_box _ _ _ _ _).2
  have hx0 := clamp_bounds x0 0 (SCREEN_WIDTH - 1) (by decide)
  have hx1 := clamp_bounds x1 0 (SCREEN_WIDTH - 1) (by decide)
  have hy0 := clamp_bounds y0 0 (SCREEN_HEIGHT - 1) (by decide)
  have hy1 := clamp_bounds y1 0 (SCREEN_HEIGHT - 1) (by decide)
  have hxa : |clamp x1 0 (SCREEN_WIDTH - 1) - clamp x0 0 (SCREEN_WIDTH - 1)| ≤ SCREEN_WIDTH - 1 :=
    abs_le.mpr ⟨by omega, by omega⟩
  have hya : |clamp y1 0 (SCREEN_HEIGHT - 1) - clamp y0 0 (SCREEN_HEIGHT - 1)|
      ≤ SCREEN_HEIGHT - 1 := abs_le.mpr ⟨by omega, by omega⟩
  have : ((SCREEN_WIDTH + SCREEN_HEIGHT).toNat : Int) = SCREEN_WIDTH + SCREEN_HEIGHT := by
    decide
  rw [this]
  omega

/-- Within any number of iterations, `draw_line` writes only pixels of the
bounding box of its clamped end points, which is part of the screen. -/
theorem draw_line.run_in_box (fuel : Nat) (x0 y0 x1 y1 : Int) :
    ∀ px ∈ (draw_line.run fuel x0 y0 x1 y1).1,
      ((min (clamp x0 0 (SCREEN_WIDTH - 1)) (clamp x1 0 (SCREEN_WIDTH - 1)) ≤ px.1 ∧
          px.1 ≤ max (clamp x0 0 (SCREEN_WIDTH - 1)) (clamp x1 0 (SCREEN_WIDTH - 1))) ∧
        (min (clamp y0 0 (SCREEN_HEIGHT - 1)) (clamp y1 0 (SCREEN_HEIGHT - 1)) ≤ px.2 ∧
          px.2 ≤ max (clamp y0 0 (SCREEN_HEIGHT - 1)) (clamp y1 0 (SCREEN_HEIGHT - 1)))) ∧
      ((0 ≤ px.1 ∧ px.1 ≤ 1199) ∧ (0 ≤ px.2 ∧ px.2 ≤ 599)) := by
  intro px hpx
  unfold draw_line.run at hpx
  dsimp only at hpx
  have hbox := (draw_line.loop_box _ _ _ _ fuel).1 px hpx
  refine ⟨hbox, ?_⟩
  have hx0 := clamp_bounds x0 0 (SCREEN_WIDTH - 1) (by decide)
  have hx1 := clamp_bounds x1 0 (SCREEN_WIDTH - 1) (by decide)
  have hy0 := clamp_bounds y0 0 (SCREEN_HEIGHT - 1) (by decide)
  have hy1 := clamp_bounds y1 0 (SCREEN_HEIGHT - 1) (by decide)
  have hW : SCREEN_WIDTH - 1 = 1199 := by decide
  have hH : SCREEN_HEIGHT - 1 = 599 := by decide
  rw [hW] at hx0 hx1 hbox
  rw [hH] at hy0 hy1 hbox
  obtain ⟨⟨h1, h2⟩, h3, h4⟩ := hbox
  have := le_min hx0.1 hx1.1
  have := max_le hx0.2 hx1.2
  have := le_min hy0.1 hy1.1
  have := max_le hy0.2 hy1.2
  exact ⟨⟨by omega, by omega⟩, by omega, by omega⟩

/-- Every pixel `draw_line` writes is on the screen. -/
theorem draw_line_on_screen (x0 y0 x1 y1 : Int) :
    ∀ px ∈ draw_line x0 y0 x1 y1, (0 ≤ px.1 ∧ px.1 ≤ 1199) ∧ (0 ≤ px.2 ∧ px.2 ≤ 599) :=
  fun px hpx => (draw_line.run_in_box _ x0 y0 x1 y1 px hpx).2

/-- Claim C9: whatever its integer arguments, every pixel `draw_line` hands to
`put_pixel_fast`, within any number of loop iterations, lies in the bounding
box of the clamped end points and so has `0 <= x <= 1199` and `0 <= y <= 599`. -/
theorem draw_line_writes_on_screen (fuel : Nat) (x0 y0 x1 y1 : Int) :
    ∀ px ∈ (draw_line.run fuel x0 y0 x1 y1).1,
      ((min (clamp x0 0 (SCREEN_WIDTH - 1)) (clamp x1 0 (SCREEN_WIDTH - 1)) ≤ px.1 ∧
          px.1 ≤ max (clamp x0 0 (SCREEN_WIDTH - 1)) (clamp x1 0 (SCREEN_WIDTH - 1))) ∧
        (min (clamp y0 0 (SCREEN_HEIGHT - 1)) (clamp y1 0 (SCREEN_HEIGHT - 1)) ≤ px.2 ∧
          px.2 ≤ max (clamp y0 0 (SCREEN_HEIGHT - 1)) (clamp y1 0 (SCREEN_HEIGHT - 1)))) ∧
      ((0 ≤ px.1 ∧ px.1 ≤ 1199) ∧ (0 ≤ px.2 ∧ px.2 ≤ 599)) :=
  draw_line.run_in_box fuel x0 y0 x1 y1

/-- Witness for C9: the line from (-10,-10) to (3,2) is clamped to start at
(0,0); the pixel (2,1) is the third one it writes. -/
theorem draw_line_writes_on_screen_witness :
    ((2, 1) : Int × Int) ∈ (draw_line.run 10 (-10) (-10) 3 2).1 ∧
      ((0 ≤ (2 : Int) ∧ (2 : Int) ≤ 1199) ∧ (0 ≤ (1 : Int) ∧ (1 : Int) ≤ 599)) :=
  ⟨by decide, (draw_line_writes_on_screen 10 (-10) (-10) 3 2 (2, 1) (by decide)).2⟩

/-! ## Rendering -/

/-- The loop `for (int v = lo; v <= hi; v++)` takes exactly the values from `lo` to `hi`. -/
theorem mem_forRange (lo hi v : Int) : v ∈ forRange lo hi ↔ lo ≤ v ∧ v ≤ hi := by
  unfold forRange
  rw [List.mem_map]
  constructor
  · rintro ⟨i, hi1, rfl⟩
    rw [List.mem_range] at hi1
    omega
  · rintro ⟨h1, h2⟩
    exact ⟨(v - lo).toNat, List.mem_range.mpr (by omega), by omega⟩

/-- The pixels the scan of `draw_filled_circle` writes: those of the clipped
bounding box that pass the disc test. -/
theorem draw_filled_circle.mem_scan (cx cy r x y : Int) :
    (x, y) ∈ draw_filled_circle.scan cx cy r ↔
      (max 0 (cx - r) ≤ x ∧ x ≤ min (SCREEN_WIDTH - 1) (cx + r)) ∧
      (max 0 (cy - r) ≤ y ∧ y ≤ min (SCREEN_HEIGHT - 1) (cy + r)) ∧
      (x - cx) * (x - cx) + (y - cy) * (y - cy) ≤ r * r := by
  unfold draw_filled_circle.scan
  simp only [List.mem_flatMap, List.mem_map, List.mem_filter, mem_forRange, Prod.mk.injEq,
    decide_eq_true_eq]
  constructor
  · rintro ⟨y2, hy, x2, ⟨hx, ht⟩, rfl, rfl⟩
    exact ⟨hx, hy, ht⟩
  · rintro ⟨hx, hy, ht⟩
    exact ⟨y, hy, x, ⟨hx, ht⟩, rfl, rfl⟩

/-- On the screen, with a radius that is not negative, the scan of
`draw_filled_circle` writes exactly the pixels that pass the disc test. -/
theorem draw_filled_circle.mem_scan_on_screen (cx cy r x y : Int) (hr : 0 ≤ r)
    (hx0 : 0 ≤ x) (hx1 : x ≤ 1199) (hy0 : 0 ≤ y) (hy1 : y ≤ 599) :
    (x, y) ∈ draw_filled_circle.scan cx cy r ↔
      (x - cx) * (x - cx) + (y - cy) * (y - cy) ≤ r * r := by
  rw [draw_filled_circle.mem_scan]
  constructor
  · exact fun h => h.2.2
  · intro h
    have hW : SCREEN_WIDTH - 1 = 1199 := by decide
    have hH : SCREEN_HEIGHT - 1 = 599 := by decide
    rw [hW, hH]
    have hxr : |x - cx| ≤ r := by
      apply abs_le_of_sq_le_sq _ hr
      nlinarith [mul_self_nonneg (y - cy)]
    have hyr : |y - cy| ≤ r := by
      apply abs_le_of_sq_le_sq _ hr
      nlinarith [mul_self_nonneg (x - cx)]
    rw [abs_le] at hxr hyr
    refine ⟨⟨max_le hx0 (by omega), le_min hx1 (by omega)⟩,
      ⟨max_le hy0 (by omega), le_min hy1 (by omega)⟩, h⟩

/-- Every pixel the scan of `draw_filled_circle` writes is on the screen. -/
theorem draw_filled_circle.scan_on_screen (cx cy r : Int) :
    ∀ px ∈ draw_filled_circle.scan cx cy r,
      (0 ≤ px.1 ∧ px.1 ≤ 1199) ∧ (0 ≤ px.2 ∧ px.2 ≤ 599) := by
  rintro ⟨x, y⟩ hpx
  obtain ⟨⟨h1, h2⟩, ⟨h3, h4⟩, -⟩ := (draw_filled_circle.mem_scan cx cy r x y).mp hpx
  have hW : SCREEN_WIDTH - 1 = 1199 := by decide
  have hH : SCREEN_HEIGHT - 1 = 599 := by decide
  rw [hW] at h2
  rw [hH] at h4
  exact ⟨⟨le_trans (le_max_left _ _) h1, le_trans h2 (min_le_left _ _)⟩,
    le_trans (le_max_left _ _) h3, le_trans h4 (min_le_left _ _)⟩

/-- Two pixels of one buffer row layout with `0 <= x < pitch` have the same
buffer index only when they are the same pixel. -/
theorem index_injective (pitch x y x2 y2 : Int) (hx0 : 0 ≤ x) (hx1 : x < pitch)
    (hx20 : 0 ≤ x2) (hx21 : x2 < pitch) (h : y * pitch + x = y2 * pitch + x2) :
    x = x2 ∧ y = y2 := by
  have hy : y = y2 := by
    rcases lt_trichotomy y y2 with hlt | heq | hgt
    · exfalso
      have : (y2 - y) * pitch ≥ 1 * pitch :=
        mul_le_mul_of_nonneg_right (by omega) (by omega)
      nlinarith
    · exact heq
    · exfalso
      have : (y - y2) * pitch ≥ 1 * pitch :=
        mul_le_mul_of_nonneg_right (by omega) (by omega)
      nlinarith
  subst hy
  exact ⟨by omega, rfl⟩

/-- After a sequence of on-screen writes in one color, an on-screen pixel has
that color if it was written and its old value otherwise. -/
theorem plot_apply (pixels : Int → Uint32) (pitch : Int) (writes : List (Int × Int))
    (color : Uint32) (hpitch : SCREEN_WIDTH ≤ pitch)
    (hw : ∀ px ∈ writes, (0 ≤ px.1 ∧ px.1 ≤ 1199) ∧ (0 ≤ px.2 ∧ px.2 ≤ 599))
    (x y : Int) (hx0 : 0 ≤ x) (hx1 : x ≤ 1199) :
    plot pixels pitch writes color (y * pitch + x)
      = if (x, y) ∈ writes then color else pixels (y * pitch + x) := by
  have hW : SCREEN_WIDTH = 1200 := rfl
  unfold plot
  induction writes generalizing pixels with
  | nil => simp
  | cons w rest ih =>
    rw [List.foldl_cons, ih _ (fun px hpx => hw px (List.mem_cons_of_mem w hpx))]
    by_cases hmem : (x, y) ∈ rest
    · rw [if_pos hmem, if_pos (List.mem_cons_of_mem w hmem)]
    · rw [if_neg hmem]
      obtain ⟨⟨hw1, hw2⟩, -⟩ := hw w (List.mem_cons_self w rest)
      unfold put_pixel_fast
      by_cases heq : (x, y) = w
      · rw [if_pos (heq ▸ List.mem_cons_self _ rest)]
        rw [← heq]
        exact Function.update_same _ _ _
      · have hne : (x, y) ∉ w :: rest := by
          intro hc
          rcases List.mem_cons.mp hc with h | h
          · exact heq h
          · exact hmem h
        rw [if_neg hne]
        apply Function.update_noteq
        intro hidx
        obtain ⟨h1, h2⟩ := index_injective pitch x y w.1 w.2 hx0 (by omega) hw1 (by omega) hidx
        exact heq (Prod.ext h1 h2)

/-- After a loop that plots one on-screen write sequence per element in one
color, an on-screen pixel has that color if some sequence wrote it and its
old value otherwise. -/
theorem foldl_plot_apply {α : Type} (f : α → List (Int × Int)) (l : List α)
    (pixels : Int → Uint32) (pitch : Int) (color : Uint32) (hpitch : SCREEN_WIDTH ≤ pitch)
    (hf : ∀ a ∈ l, ∀ px ∈ f a, (0 ≤ px.1 ∧ px.1 ≤ 1199) ∧ (0 ≤ px.2 ∧ px.2 ≤ 599))
    (x y : Int) (hx0 : 0 ≤ x) (hx1 : x ≤ 1199) :
    l.foldl (fun px a => plot px pitch (f a) color) pixels (y * pitch + x)
      = if ∃ a ∈ l, (x, y) ∈ f a then color else pixels (y * pitch + x) := by
  induction l generalizing pixels with
  | nil => simp
  | cons a rest ih =>
    rw [List.foldl_cons, ih _ (fun b hb => hf b (List.mem_cons_of_mem a hb)),
      plot_apply pixels pitch (f a) color hpitch (hf a (List.mem_cons_self a rest)) x y hx0 hx1]
    by_cases h1 : ∃ b ∈ rest, (x, y) ∈ f b
    · obtain ⟨b, hb, hmem⟩ := h1
      rw [if_pos ⟨b, hb, hmem⟩, if_pos ⟨b, List.mem_cons_of_mem a hb, hmem⟩]
    · rw [if_neg h1]
      by_cases h2 : (x, y) ∈ f a
      · rw [if_pos h2, if_pos ⟨a, List.mem_cons_self a rest, h2⟩]
      · rw [if_neg h2, if_neg]
        rintro ⟨b, hb, hmem⟩
        rcases List.mem_cons.mp hb with h | h
        · exact h2 (h ▸ hmem)
        · exact h1 ⟨b, h, hmem⟩

section RenderLemmas

variable {K : Type} [LinearOrderedField K] [FloorRing K]

/-- Converting a value that is not negative to `int` gives an `int` that is not negative. -/
theorem trunc_nonneg (v : K) (h : 0 ≤ v) : 0 ≤ trunc v := by
  unfold trunc
  rw [if_pos h]
  exact Int.floor_nonneg.mpr h

/-- The radius 10 of the light glyph converts to the `int` 10. -/
theorem trunc_ten : trunc (10 : K) = 10 := by
  unfold trunc
  rw [if_pos (by norm_num)]
  exact Int.floor_eq_iff.mpr ⟨by norm_num, by norm_num⟩

/-- Every pixel `draw_filled_circle` writes is on the screen. -/
theorem draw_filled_circle_on_screen (circle : Circle K) :
    ∀ px ∈ draw_filled_circle circle, (0 ≤ px.1 ∧ px.1 ≤ 1199) ∧ (0 ≤ px.2 ∧ px.2 ≤ 599) :=
  draw_filled_circle.scan_on_screen _ _ _

/-- Claim C10: the layers of a frame. The render pass starts from the cleared
black buffer of a surface whose rows hold at least `SCREEN_WIDTH` pixels, with
obstacles of positive radius as in the data model. For every on-screen pixel:
if it passes the disc test of the light glyph (radius 10 around the truncated
light position) its final color is `white`; otherwise, if it passes the disc
test of some obstacle, its final color is `blue`; otherwise its final color is
`yellow` or `black`. -/
theorem render_pass_layers (sqrt : K → K) (pitch : Int) (black white yellow blue : Uint32)
    (lightPos : Vec2 K) (obstacles : List (Circle K)) (dirs : List (Vec2 K))
    (pixels : Int → Uint32) (hpitch : SCREEN_WIDTH ≤ pitch)
    (hclear : ∀ x y : Int, 0 ≤ x → x ≤ 1199 → 0 ≤ y → y ≤ 599 → pixels (y * pitch + x) = black)
    (hrad : ∀ c ∈ obstacles, 0 < c.radius)
    (x y : Int) (hx0 : 0 ≤ x) (hx1 : x ≤ 1199) (hy0 : 0 ≤ y) (hy1 : y ≤ 599) :
    ((x - trunc lightPos.x) * (x - trunc lightPos.x)
        + (y - trunc lightPos.y) * (y - trunc lightPos.y) ≤ 10 * 10 →
      render_pass sqrt pitch white yellow blue lightPos obstacles dirs pixels (y * pitch + x)
        = white) ∧
    (¬ (x - trunc lightPos.x) * (x - trunc lightPos.x)
        + (y - trunc lightPos.y) * (y - trunc lightPos.y) ≤ 10 * 10 →
      ((∃ c ∈ obstacles, (x - trunc c.pos.x) * (x - trunc c.pos.x)
          + (y - trunc c.pos.y) * (y - trunc c.pos.y) ≤ trunc c.radius * trunc c.radius) →
        render_pass sqrt pitch white yellow blue lightPos obstacles dirs pixels (y * pitch + x)
          = blue) ∧
      (¬ (∃ c ∈ obstacles, (x - trunc c.pos.x) * (x - trunc c.pos.x)
          + (y - trunc c.pos.y) * (y - trunc c.pos.y) ≤ trunc c.radius * trunc c.radius) →
        render_pass sqrt pitch white yellow blue lightPos obstacles dirs pixels (y * pitch + x)
            = yellow ∨
          render_pass sqrt pitch white yellow blue lightPos obstacles dirs pixels (y * pitch + x)
            = black)) := by
  have hlight : (x, y) ∈ draw_filled_circle (⟨lightPos, 10, ⟨0, 0⟩⟩ : Circle K) ↔
      (x - trunc lightPos.x) * (x - trunc lightPos.x)
        + (y - trunc lightPos.y) * (y - trunc lightPos.y) ≤ 10 * 10 := by
    unfold draw_filled_circle
    dsimp only
    rw [trunc_ten]
    exact draw_filled_circle.mem_scan_on_screen _ _ 10 x y (by norm_num) hx0 hx1 hy0 hy1
  have hobs : (∃ c ∈ obstacles, (x, y) ∈ draw_filled_circle c) ↔
      (∃ c ∈ obstacles, (x - trunc c.pos.x) * (x - trunc c.pos.x)
          + (y - trunc c.pos.y) * (y - trunc c.pos.y) ≤ trunc c.radius * trunc c.radius) := by
    constructor
    · rintro ⟨c, hc, hmem⟩
      exact ⟨c, hc, (draw_filled_circle.mem_scan_on_screen _ _ _ x y
        (trunc_nonneg _ (hrad c hc).le) hx0 hx1 hy0 hy1).mp hmem⟩
    · rintro ⟨c, hc, hmem⟩
      exact ⟨c, hc, (draw_filled_circle.mem_scan_on_screen _ _ _ x y
        (trunc_nonneg _ (hrad c hc).le) hx0 hx1 hy0 hy1).mpr hmem⟩
  unfold render_pass
  dsimp only
  rw [plot_apply _ pitch _ white hpitch (draw_filled_circle_on_screen _) x y hx0 hx1,
    foldl_plot_apply draw_filled_circle obstacles _ pitch blue hpitch
      (fun c _ => draw_filled_circle_on_screen c) x y hx0 hx1,
    foldl_plot_apply (fun d : Vec2 K => draw_line (trunc lightPos.x) (trunc lightPos.y)
        (trunc (lightPos.x + d.x * calculate_intersection sqrt ⟨lightPos, d⟩ obstacles))
        (trunc (lightPos.y + d.y * calculate_intersection sqrt ⟨lightPos, d⟩ obstacles)))
      dirs pixels pitch yellow hpitch (fun d _ => draw_line_on_screen _ _ _ _) x y hx0 hx1,
    hclear x y hx0 hx1 hy0 hy1]
  refine ⟨fun h => if_pos (hlight.mpr h), fun h => ⟨fun ho => ?_, fun ho => ?_⟩⟩
  · rw [if_neg (fun hc => h (hlight.mp hc)), if_pos (hobs.mpr ho)]
  · rw [if_neg (fun hc => h (hlight.mp hc)), if_neg (fun hc => ho (hobs.mp hc))]
    split_ifs
    · exact Or.inl rfl
    · exact Or.inr rfl

end RenderLemmas

/-- Witness for C10: the initial scene on a surface of pitch 1200, the light at
(200,200), one ray in direction (1,0); the pixel (200,200) under the light
glyph ends up white. -/
theorem render_pass_layers_witness :
    render_pass Real.sqrt 1200 16777215 16766011 3289855 (⟨200, 200⟩ : Vec2 ℝ)
      [⟨⟨550, 300⟩, 80, ⟨0, 150⟩⟩, ⟨⟨200, 100⟩, 30, ⟨0, 0⟩⟩, ⟨⟨900, 450⟩, 60, ⟨0, 0⟩⟩]
      [⟨1, 0⟩] (fun _ => 0) (200 * 1200 + 200) = 16777215 := by
  have h200 : trunc (200 : ℝ) = 200 := by
    unfold trunc
    rw [if_pos (by norm_num)]
    exact Int.floor_eq_iff.mpr ⟨by norm_num, by norm_num⟩
  exact (render_pass_layers Real.sqrt 1200 0 16777215 16766011 3289855 (⟨200, 200⟩ : Vec2 ℝ)
    [⟨⟨550, 300⟩, 80, ⟨0, 150⟩⟩, ⟨⟨200, 100⟩, 30, ⟨0, 0⟩⟩, ⟨⟨900, 450⟩, 60, ⟨0, 0⟩⟩]
    [⟨1, 0⟩] (fun _ => 0) (by decide) (fun _ _ _ _ _ _ => rfl)
    (by
      intro c hc
      simp only [List.mem_cons, List.mem_singleton, List.mem_nil_iff, or_false] at hc
      rcases hc with h | h | h <;> subst h <;> norm_num)
    200 200 (by norm_num) (by norm_num) (by norm_num) (by norm_num)).1
    (by rw [h200]; norm_num)

/-! ## The solver: relations between results -/

section SolverRelations

variable {K : Type} [LinearOrderedField K]

/-- An obstacle without a candidate, inserted anywhere in the list, leaves the
result as it is. -/
theorem calculate_intersection.insert_none (sqrt : K → K) (ray : Ray K)
    (pre post : List (Circle K)) (c : Circle K) (hc : near_root sqrt ray c = none) :
    calculate_intersection sqrt ray (pre ++ c :: post)
      = calculate_intersection sqrt ray (pre ++ post) := by
  unfold calculate_intersection
  rw [List.foldl_append, List.foldl_cons, calculate_intersection.circle_eq, hc, List.foldl_append]

/-- Two iterations of the obstacle loop give the same `min_t` in either order. -/
theorem calculate_intersection.circle_comm (sqrt : K → K) (ray : Ray K) (m : K)
    (a b : Circle K) :
    calculate_intersection.circle sqrt ray (calculate_intersection.circle sqrt ray m a) b
      = calculate_intersection.circle sqrt ray (calculate_intersection.circle sqrt ray m b) a := by
  rw [calculate_intersection.circle_eq sqrt ray _ b, calculate_intersection.circle_eq sqrt ray m a,
    calculate_intersection.circle_eq sqrt ray _ a, calculate_intersection.circle_eq sqrt ray m b]
  cases near_root sqrt ray a <;> cases near_root sqrt ray b
  · rfl
  · rfl
  · rfl
  · exact min_right_comm _ _ _

/-- Claim C16: adding an obstacle at the end of the list never lengthens a
ray, and the result for any obstacle list is at most the result for the
borders alone. -/
theorem calculate_intersection_antitone (sqrt : K → K) (ray : Ray K)
    (obstacles : List (Circle K)) (c : Circle K) :
    calculate_intersection sqrt ray (obstacles ++ [c]) ≤ calculate_intersection sqrt ray obstacles ∧
      calculate_intersection sqrt ray obstacles ≤ calculate_intersection sqrt ray [] := by
  constructor
  · unfold calculate_intersection
    rw [List.foldl_append, List.foldl_cons, List.foldl_nil]
    exact calculate_intersection.circle_le sqrt ray _ c
  · exact calculate_intersection.le_borders sqrt ray obstacles

/-- Claim C17: the result of `calculate_intersection` does not depend on the
order of the obstacles: two lists that are permutations of each other give the
same distance. -/
theorem calculate_intersection_perm (sqrt : K → K) (ray : Ray K)
    (obstacles₁ obstacles₂ : List (Circle K)) (hperm : obstacles₁.Perm obstacles₂) :
    calculate_intersection sqrt ray obstacles₁ = calculate_intersection sqrt ray obstacles₂ := by
  unfold calculate_intersection
  exact hperm.foldl_eq' (fun a _ b _ m => calculate_intersection.circle_comm sqrt ray m a b) _

/-- Claim C12: one physics tick changes obstacle 0 only. Its `pos.y` advances
by `velocity.y * dt`; its `velocity.y` is negated when after the move
`pos.y - radius < 0` or `pos.y + radius > 600` and kept otherwise, so its
absolute value is kept; its `pos.x`, `radius` and `velocity.x` are unchanged,
and so is every other obstacle. -/
theorem physics_update_tick (c : Circle K) (rest : List (Circle K)) (dt : K) :
    ∃ c2 : Circle K, physics_update (c :: rest) dt = c2 :: rest ∧
      c2.pos.y = c.pos.y + c.velocity.y * dt ∧
      c2.velocity.y
        = (if c2.pos.y - c2.radius < 0 ∨ c2.pos.y + c2.radius > 600 then -c.velocity.y
            else c.velocity.y) ∧
      c2.pos.x = c.pos.x ∧ c2.radius = c.radius ∧ c2.velocity.x = c.velocity.x ∧
      |c2.velocity.y| = |c.velocity.y| := by
  have hH : ((SCREEN_HEIGHT : Int) : K) = 600 := by norm_num [SCREEN_HEIGHT]
  refine ⟨bounce c dt, rfl, ?_⟩
  unfold bounce
  dsimp only
  rw [hH]
  by_cases h : c.pos.y + c.velocity.y * dt - c.radius < 0 ∨
      c.pos.y + c.velocity.y * dt + c.radius > 600
  · rw [if_pos h]
    dsimp only
    rw [if_pos h]
    refine ⟨rfl, by ring, rfl, rfl, rfl, ?_⟩
    rw [mul_neg, mul_one, abs_neg]
  · rw [if_neg h]
    dsimp only
    rw [if_neg h]
    exact ⟨rfl, rfl, rfl, rfl, rfl, rfl⟩

end SolverRelations

/-- Witness for C17: the three obstacles of the initial scene in two orders,
seen from (200,200) in direction (1,0). -/
theorem calculate_intersection_perm_witness :
    calculate_intersection Real.sqrt (⟨⟨200, 200⟩, ⟨1, 0⟩⟩ : Ray ℝ)
        [⟨⟨550, 300⟩, 80, ⟨0, 150⟩⟩, ⟨⟨200, 100⟩, 30, ⟨0, 0⟩⟩, ⟨⟨900, 450⟩, 60, ⟨0, 0⟩⟩]
      = calculate_intersection Real.sqrt (⟨⟨200, 200⟩, ⟨1, 0⟩⟩ : Ray ℝ)
        [⟨⟨200, 100⟩, 30, ⟨0, 0⟩⟩, ⟨⟨550, 300⟩, 80, ⟨0, 150⟩⟩, ⟨⟨900, 450⟩, 60, ⟨0, 0⟩⟩] :=
  calculate_intersection_perm Real.sqrt ⟨⟨200, 200⟩, ⟨1, 0⟩⟩ _ _ (List.Perm.swap _ _ _)

/-- Over the reals, an obstacle whose disc strictly contains the origin of the
ray has no candidate: it is behind the ray, or its near root is negative. -/
theorem near_root_origin_inside (ray : Ray ℝ) (c : Circle ℝ)
    (hin : distance Real.sqrt c.pos ray.start < c.radius) :
    near_root Real.sqrt ray c = none := by
  unfold distance Vec2.length at hin
  dsimp only at hin
  have hr : 0 < c.radius := lt_of_le_of_lt (Real.sqrt_nonneg _) hin
  rw [Real.sqrt_lt' hr] at hin
  unfold near_root
  dsimp only
  set Lx := c.pos.x - ray.start.x with hLx
  set Ly := c.pos.y - ray.start.y with hLy
  set tca := Lx * ray.dir.x + Ly * ray.dir.y with htca
  apply if_neg
  rintro ⟨-, -, h3⟩
  have hs0 : 0 ≤ Real.sqrt (c.radius * c.radius - (Lx * Lx + Ly * Ly - tca * tca)) :=
    Real.sqrt_nonneg _
  have htpos : 0 < tca := by linarith
  have hlt : Real.sqrt (c.radius * c.radius - (Lx * Lx + Ly * Ly - tca * tca)) < tca := by
    linarith
  rw [Real.sqrt_lt' htpos] at hlt
  nlinarith

/-- Claim C11: over the reals, an obstacle `c` whose disc strictly contains the
origin of the ray (`|c.center - origin| < c.radius`) is ignored wherever it
stands in the list: `calculate_intersection` returns the same distance with and
without it. The direction of the ray need not be of unit length. -/
theorem calculate_intersection_origin_inside (ray : Ray ℝ) (pre post : List (Circle ℝ))
    (c : Circle ℝ) (hin : distance Real.sqrt c.pos ray.start < c.radius) :
    calculate_intersection Real.sqrt ray (pre ++ c :: post)
      = calculate_intersection Real.sqrt ray (pre ++ post) :=
  calculate_intersection.insert_none Real.sqrt ray pre post c (near_root_origin_inside ray c hin)

/-- Witness for C11: the ray from (420,210) in direction (1,0), inside the
obstacle at (400,200) of radius 50 that stands between two obstacles of the
initial scene. -/
theorem calculate_intersection_origin_inside_witness :
    calculate_intersection Real.sqrt (⟨⟨420, 210⟩, ⟨1, 0⟩⟩ : Ray ℝ)
        ([⟨⟨200, 100⟩, 30, ⟨0, 0⟩⟩] ++ (⟨⟨400, 200⟩, 50, ⟨0, 0⟩⟩ : Circle ℝ)
          :: [⟨⟨900, 450⟩, 60, ⟨0, 0⟩⟩])
      = calculate_intersection Real.sqrt (⟨⟨420, 210⟩, ⟨1, 0⟩⟩ : Ray ℝ)
        ([⟨⟨200, 100⟩, 30, ⟨0, 0⟩⟩] ++ [⟨⟨900, 450⟩, 60, ⟨0, 0⟩⟩]) :=
  calculate_intersection_origin_inside ⟨⟨420, 210⟩, ⟨1, 0⟩⟩ _ _ ⟨⟨400, 200⟩, 50, ⟨0, 0⟩⟩ (by
    unfold distance Vec2.length
    dsimp only
    rw [Real.sqrt_lt' (by norm_num)]
    norm_num)

/-- Over the reals, for a ray of unit direction, the point at the distance of
an obstacle's candidate lies on the circumference of that obstacle. -/
theorem near_root_on_circle (ray : Ray ℝ) (c : Circle ℝ) (t : ℝ)
    (hunit : Vec2.length Real.sqrt ray.dir = 1) (hr : 0 ≤ c.radius)
    (ht : near_root Real.sqrt ray c = some t) :
    distance Real.sqrt (ray.point t) c.pos = c.radius := by
  unfold Vec2.length at hunit
  rw [Real.sqrt_eq_one] at hunit
  unfold near_root at ht
  dsimp only at ht
  unfold distance Vec2.length Ray.point
  dsimp only
  set Lx := c.pos.x - ray.start.x with hLx
  set Ly := c.pos.y - ray.start.y with hLy
  set tca := Lx * ray.dir.x + Ly * ray.dir.y with htca
  set d2 := Lx * Lx + Ly * Ly - tca * tca with hd2
  split_ifs at ht with hcond
  obtain ⟨-, h2, -⟩ := hcond
  have ht2 : tca - Real.sqrt (c.radius * c.radius - d2) = t := Option.some.inj ht
  have hthc : Real.sqrt (c.radius * c.radius - d2) * Real.sqrt (c.radius * c.radius - d2)
      = c.radius * c.radius - d2 := Real.mul_self_sqrt (by linarith)
  have hsum : (ray.start.x + ray.dir.x * t - c.pos.x) * (ray.start.x + ray.dir.x * t - c.pos.x)
      + (ray.start.y + ray.dir.y * t - c.pos.y) * (ray.start.y + ray.dir.y * t - c.pos.y)
      = c.radius * c.radius := by
    have hexp : (ray.start.x + ray.dir.x * t - c.pos.x)
          * (ray.start.x + ray.dir.x * t - c.pos.x)
        + (ray.start.y + ray.dir.y * t - c.pos.y) * (ray.start.y + ray.dir.y * t - c.pos.y)
        = Lx * Lx + Ly * Ly - 2 * t * tca
          + t * t * (ray.dir.x * ray.dir.x + ray.dir.y * ray.dir.y) := by
      rw [htca, hLx, hLy]; ring
    rw [hexp, hunit, ← ht2]
    have : d2 = Lx * Lx + Ly * Ly - tca * tca := hd2
    nlinarith
  rw [hsum]
  exact Real.sqrt_mul_self hr

/-- Claim C15: over the reals, for a ray of unit direction and obstacles whose
radii are not negative, when `calculate_intersection` returns a distance `t`
strictly below the distance for the borders alone, the hit point
`origin + t * dir` lies on the circumference of some obstacle `c` of the list:
`|origin + t * dir - c.center| = c.radius`. -/
theorem calculate_intersection_hit_on_circle (ray : Ray ℝ) (obstacles : List (Circle ℝ))
    (hunit : Vec2.length Real.sqrt ray.dir = 1)
    (hrad : ∀ c ∈ obstacles, 0 ≤ c.radius)
    (hlt : calculate_intersection Real.sqrt ray obstacles
      < calculate_intersection Real.sqrt ray []) :
    ∃ c ∈ obstacles,
      distance Real.sqrt (ray.point (calculate_intersection Real.sqrt ray obstacles)) c.pos
        = c.radius := by
  have hmem := calculate_intersection.loop_mem Real.sqrt ray obstacles
    (calculate_intersection.borders ray)
  rcases hmem with h | h
  · exact absurd hlt (by
      unfold calculate_intersection
      rw [h, List.foldl_nil]
      exact lt_irrefl _)
  · obtain ⟨c, hc, hcand⟩ := List.mem_filterMap.mp h
    exact ⟨c, hc, near_root_on_circle ray c _ hunit (hrad c hc) hcand⟩

/-- Witness for C15: the ray from (200,200) in direction (1,0) hits the
obstacle at (400,200) of radius 50 at distance 150, before the border at 1000. -/
theorem calculate_intersection_hit_on_circle_witness :
    calculate_intersection Real.sqrt (⟨⟨200, 200⟩, ⟨1, 0⟩⟩ : Ray ℝ) [⟨⟨400, 200⟩, 50, ⟨0, 0⟩⟩]
        < calculate_intersection Real.sqrt (⟨⟨200, 200⟩, ⟨1, 0⟩⟩ : Ray ℝ) [] ∧
      ∃ c ∈ ([⟨⟨400, 200⟩, 50, ⟨0, 0⟩⟩] : List (Circle ℝ)),
        distance Real.sqrt ((⟨⟨200, 200⟩, ⟨1, 0⟩⟩ : Ray ℝ).point
          (calculate_intersection Real.sqrt ⟨⟨200, 200⟩, ⟨1, 0⟩⟩ [⟨⟨400, 200⟩, 50, ⟨0, 0⟩⟩]))
          c.pos = c.radius := by
  have h50 : Real.sqrt 2500 = 50 := by
    rw [show (2500 : ℝ) = 50 * 50 by norm_num]
    exact Real.sqrt_mul_self (by norm_num)
  have hlt : calculate_intersection Real.sqrt (⟨⟨200, 200⟩, ⟨1, 0⟩⟩ : Ray ℝ)
      [⟨⟨400, 200⟩, 50, ⟨0, 0⟩⟩]
      < calculate_intersection Real.sqrt (⟨⟨200, 200⟩, ⟨1, 0⟩⟩ : Ray ℝ) [] := by
    norm_num [calculate_intersection, calculate_intersection.borders,
      calculate_intersection.circle, SCREEN_WIDTH, SCREEN_HEIGHT, h50]
  exact ⟨hlt, calculate_intersection_hit_on_circle ⟨⟨200, 200⟩, ⟨1, 0⟩⟩
    [⟨⟨400, 200⟩, 50, ⟨0, 0⟩⟩] (by norm_num [Vec2.length])
    (by intro c hc; rw [List.mem_singleton] at hc; subst hc; norm_num) hlt⟩

/-! ## Line drawing: termination and shape of the path -/

/-- A move by `ex` steps in `x` and `ey` steps in `y`, each 0 or 1 and not both
0, from a pixel that has as many steps left, is a step toward the end point. -/
theorem line_step_intro (x1 y1 x0 y0 sx sy p q ex ey : Int)
    (hsx : sx = 1 ∨ sx = -1) (hsy : sy = 1 ∨ sy = -1)
    (hx : x0 = x1 - sx * p) (hy : y0 = y1 - sy * q)
    (hex : ex = 0 ∨ (ex = 1 ∧ 1 ≤ p)) (hey : ey = 0 ∨ (ey = 1 ∧ 1 ≤ q))
    (hne : ex = 1 ∨ ey = 1) :
    line_step x1 y1 (x0, y0) (x0 + sx * ex, y0 + sy * ey) := by
  unfold line_step
  dsimp only
  have h1 : x0 + sx * ex - x0 = sx * ex := by ring
  have h2 : y0 + sy * ey - y0 = sy * ey := by ring
  rw [h1, h2, abs_mul, abs_mul]
  have hasx : |sx| = 1 := by rcases hsx with h | h <;> rw [h] <;> rfl
  have hasy : |sy| = 1 := by rcases hsy with h | h <;> rw [h] <;> rfl
  rw [hasx, hasy, one_mul, one_mul]
  have hex2 : |ex| = ex ∧ 0 ≤ ex ∧ ex ≤ 1 := by
    rcases hex with h | ⟨h, -⟩ <;> rw [h] <;> decide
  have hey2 : |ey| = ey ∧ 0 ≤ ey ∧ ey ≤ 1 := by
    rcases hey with h | ⟨h, -⟩ <;> rw [h] <;> decide
  rw [hex2.1, hey2.1]
  refine ⟨⟨hex2.2.2, hey2.2.2⟩, hne, ?_, ?_⟩
  · rcases hsx with h | h <;> rcases hex with h3 | ⟨h3, h4⟩ <;> subst h <;> subst h3 <;> omega
  · rcases hsy with h | h <;> rcases hey with h3 | ⟨h3, h4⟩ <;> subst h <;> subst h3 <;> omega

/-- The first pixel the loop of `draw_line` writes, if it writes any, is the
point it starts from. -/
theorem draw_line.loop_head (x1 y1 dx dy sx sy : Int) (fuel : Nat) (x0 y0 err : Int) :
    ∀ px ∈ (draw_line.loop x1 y1 dx dy sx sy fuel x0 y0 err).1.head?, px = (x0, y0) := by
  intro px hpx
  cases fuel with
  | zero => simp [draw_line.loop] at hpx
  | succ n =>
    unfold draw_line.loop at hpx
    split_ifs at hpx <;> simp at hpx <;> exact hpx.symm

/-- With at least one iteration, the first pixel the loop of `draw_line`
writes is the point it starts from. -/
theorem draw_line.loop_head_succ (x1 y1 dx dy sx sy : Int) (fuel : Nat) (x0 y0 err : Int) :
    (draw_line.loop x1 y1 dx dy sx sy (fuel + 1) x0 y0 err).1.head? = some (x0, y0) := by
  unfold draw_line.loop
  split_ifs <;> rfl

/-- When the loop of `draw_line` reaches its `break`, the last pixel it wrote
is the end point. -/
theorem draw_line.loop_last (x1 y1 dx dy sx sy : Int) :
    ∀ (fuel : Nat) (x0 y0 err : Int),
      (draw_line.loop x1 y1 dx dy sx sy fuel x0 y0 err).2 = true →
      (draw_line.loop x1 y1 dx dy sx sy fuel x0 y0 err).1.getLast? = some (x1, y1) := by
  intro fuel
  induction fuel with
  | zero => intro x0 y0 err h; simp [draw_line.loop] at h
  | succ n ih =>
    intro x0 y0 err h
    unfold draw_line.loop at h ⊢
    by_cases hfin : x0 = x1 ∧ y0 = y1
    · rw [if_pos hfin]
      rw [hfin.1, hfin.2]
      rfl
    · rw [if_neg hfin] at h ⊢
      dsimp only at h ⊢
      have hrest := ih _ _ _ h
      rw [List.getLast?_cons, hrest]
      rfl

/-- Once the loop of `draw_line` has reached its `break`, more iterations
change nothing. -/
theorem draw_line.loop_fuel (x1 y1 dx dy sx sy : Int) :
    ∀ (fuel k : Nat) (x0 y0 err : Int),
      (draw_line.loop x1 y1 dx dy sx sy fuel x0 y0 err).2 = true →
      draw_line.loop x1 y1 dx dy sx sy (fuel + k) x0 y0 err
        = draw_line.loop x1 y1 dx dy sx sy fuel x0 y0 err := by
  intro fuel
  induction fuel with
  | zero => intro k x0 y0 err h; simp [draw_line.loop] at h
  | succ n ih =>
    intro k x0 y0 err h
    rw [show n + 1 + k = (n + k) + 1 by omega]
    unfold draw_line.loop at h ⊢
    by_cases hfin : x0 = x1 ∧ y0 = y1
    · rw [if_pos hfin, if_pos hfin]
    · rw [if_neg hfin] at h ⊢
      rw [if_neg hfin]
      dsimp only at h ⊢
      rw [ih k _ _ _ h]

/-- Claim C13: whatever its integer arguments, the loop of `draw_line` reaches
its `break`, within `SCREEN_WIDTH + SCREEN_HEIGHT` iterations, and more
iterations change nothing; the first pixel it writes is the clamped start
point and the last pixel it writes is the clamped end point. -/
theorem draw_line_terminates (x0 y0 x1 y1 : Int) :
    (∀ fuel : Nat, (SCREEN_WIDTH + SCREEN_HEIGHT).toNat ≤ fuel →
      draw_line.run fuel x0 y0 x1 y1 = (draw_line x0 y0 x1 y1, true)) ∧
    (draw_line x0 y0 x1 y1).head?
      = some (clamp x0 0 (SCREEN_WIDTH - 1), clamp y0 0 (SCREEN_HEIGHT - 1)) ∧
    (draw_line x0 y0 x1 y1).getLast?
      = some (clamp x1 0 (SCREEN_WIDTH - 1), clamp y1 0 (SCREEN_HEIGHT - 1)) := by
  have hhalt := draw_line.run_halts x0 y0 x1 y1
  refine ⟨fun fuel hfuel => ?_, ?_, ?_⟩
  · obtain ⟨k, rfl⟩ := Nat.exists_eq_add_of_le hfuel
    unfold draw_line
    unfold draw_line.run at hhalt ⊢
    dsimp only at hhalt ⊢
    rw [draw_line.loop_fuel _ _ _ _ _ _ _ k _ _ _ hhalt, ← hhalt]
  · unfold draw_line draw_line.run
    dsimp only
    have : (SCREEN_WIDTH + SCREEN_HEIGHT).toNat = 1799 + 1 := by decide
    rw [this]
    exact draw_line.loop_head_succ _ _ _ _ _ _ _ _ _ _
  · unfold draw_line
    unfold draw_line.run at hhalt ⊢
    dsimp only at hhalt ⊢
    exact draw_line.loop_last _ _ _ _ _ _ _ _ _ _ hhalt


/-- The loop of `draw_line` on a line that is at least as wide as it is high
(`b <= a`), from a state whose error term satisfies `-b <= 2 * err`: every
iteration steps in `x`, so with `p` steps in `x` left the loop writes `p + 1`
pixels, each a step toward the end point from the one before, and no pixel
twice. -/
theorem draw_line.loop_wide (x1 y1 a b sx sy : Int) (hsx : sx = 1 ∨ sx = -1)
    (hsy : sy = 1 ∨ sy = -1) (hab : b ≤ a) :
    ∀ (fuel : Nat) (x0 y0 err p q : Int), 0 ≤ p → p ≤ a → 0 ≤ q → q ≤ b →
      x0 = x1 - sx * p → y0 = y1 - sy * q → err = a - b + p * b - q * a →
      -b ≤ 2 * err → p < fuel →
      ((draw_line.loop x1 y1 a (-b) sx sy fuel x0 y0 err).1.length : Int) = p + 1 ∧
      List.Chain' (line_step x1 y1) (draw_line.loop x1 y1 a (-b) sx sy fuel x0 y0 err).1 ∧
      (draw_line.loop x1 y1 a (-b) sx sy fuel x0 y0 err).1.Nodup := by
  have hsx0 : sx ≠ 0 := by rcases hsx with h | h <;> rw [h] <;> decide
  have hsy0 : sy ≠ 0 := by rcases hsy with h | h <;> rw [h] <;> decide
  intro fuel
  induction fuel with
  | zero =>
    intro x0 y0 err p q hp0 _ _ _ _ _ _ _ hfuel
    simp at hfuel
    omega
  | succ n ih =>
    intro x0 y0 err p q hp0 hpa hq0 hqb hx hy herr hinv hfuel
    have hpb : 0 ≤ p * b := mul_nonneg hp0 (le_trans hq0 hqb)
    have hqa : 0 ≤ q * a := mul_nonneg hq0 (le_trans hp0 hpa)
    have hspec := fun x0n y0n errn pn qn h1 h2 h3 h4 h5 h6 h7 =>
      (draw_line.loop_spec x1 y1 a b sx sy hsx0 hsy0 n x0n y0n errn pn qn h1 h2 h3 h4 h5 h6 h7).1
    unfold draw_line.loop
    by_cases hfin : x0 = x1 ∧ y0 = y1
    · rw [if_pos hfin]
      have hp : p = 0 := by
        have h1 : sx * p = 0 := by have := hfin.1; rw [hx] at this; linarith
        exact (mul_eq_zero.mp h1).resolve_left hsx0
      refine ⟨by rw [hp]; rfl, List.chain'_singleton _, List.nodup_singleton _⟩
    · rw [if_neg hfin]
      dsimp only
      have hp1 : 1 ≤ p := by
        by_contra hcon
        have hp : p = 0 := by omega
        have hq : q = 0 := by
          by_contra hq
          have hq1 : 1 ≤ q := by omega
          subst hp
          nlinarith
        exact hfin ⟨by rw [hx, hp]; ring, by rw [hy, hq]; ring⟩
      have hxs : 2 * err ≥ -b := hinv
      by_cases hys : 2 * err ≤ a
      · simp only [hxs, hys, if_true]
        have hq1 : 1 ≤ q := by
          by_contra hcon
          have hq : q = 0 := by omega
          subst hq
          nlinarith
        have hxn : x0 + sx = x1 - sx * (p - 1) := by rw [hx]; ring
        have hyn : y0 + sy = y1 - sy * (q - 1) := by rw [hy]; ring
        have hen : err + -b + a = a - b + (p - 1) * b - (q - 1) * a := by rw [herr]; ring
        obtain ⟨ih1, ih2, ih3⟩ := ih (x0 + sx) (y0 + sy) (err + -b + a) (p - 1) (q - 1)
          (by omega) (by omega) (by omega) (by omega) hxn hyn hen (by omega) (by omega)
        refine ⟨?_, ?_, ?_⟩
        · rw [List.length_cons]; push_cast; omega
        · rw [List.chain'_cons']
          refine ⟨fun px hpx => ?_, ih2⟩
          rw [draw_line.loop_head _ _ _ _ _ _ _ _ _ _ px hpx]
          simpa using line_step_intro x1 y1 x0 y0 sx sy p q 1 1 hsx hsy hx hy
            (Or.inr ⟨rfl, hp1⟩) (Or.inr ⟨rfl, hq1⟩) (Or.inl rfl)
        · rw [List.nodup_cons]
          refine ⟨fun hmem => ?_, ih3⟩
          obtain ⟨p2, q2, h1, h2, -, -, h5⟩ := hspec _ _ _ (p - 1) (q - 1)
            (by omega) (by omega) (by omega) (by omega) hxn hyn hen _ hmem
          have h6 : x0 = x1 - sx * p2 := (Prod.ext_iff.mp h5).1
          have h7 : sx * (p - p2) = 0 := by rw [hx] at h6; linarith
          have := (mul_eq_zero.mp h7).resolve_left hsx0
          omega
      · simp only [hxs, hys, if_true, if_false]
        have hxn : x0 + sx = x1 - sx * (p - 1) := by rw [hx]; ring
        have hen : err + -b = a - b + (p - 1) * b - q * a := by rw [herr]; ring
        obtain ⟨ih1, ih2, ih3⟩ := ih (x0 + sx) y0 (err + -b) (p - 1) q
          (by omega) (by omega) hq0 hqb hxn hy hen (by omega) (by omega)
        refine ⟨?_, ?_, ?_⟩
        · rw [List.length_cons]; push_cast; omega
        · rw [List.chain'_cons']
          refine ⟨fun px hpx => ?_, ih2⟩
          rw [draw_line.loop_head _ _ _ _ _ _ _ _ _ _ px hpx]
          simpa using line_step_intro x1 y1 x0 y0 sx sy p q 1 0 hsx hsy hx hy
            (Or.inr ⟨rfl, hp1⟩) (Or.inl rfl) (Or.inl rfl)
        · rw [List.nodup_cons]
          refine ⟨fun hmem => ?_, ih3⟩
          obtain ⟨p2, q2, h1, h2, -, -, h5⟩ := hspec _ _ _ (p - 1) q
            (by omega) (by omega) hq0 hqb hxn hy hen _ hmem
          have h6 : x0 = x1 - sx * p2 := (Prod.ext_iff.mp h5).1
          have h7 : sx * (p - p2) = 0 := by rw [hx] at h6; linarith
          have := (mul_eq_zero.mp h7).resolve_left hsx0
          omega


/-- The loop of `draw_line` on a line that is at least as high as it is wide
(`a <= b`), from a state whose error term satisfies `2 * err <= a`: every
iteration steps in `y`, so with `q` steps in `y` left the loop writes `q + 1`
pixels, each a step toward the end point from the one before, and no pixel
twice. -/
theorem draw_line.loop_tall (x1 y1 a b sx sy : Int) (hsx : sx = 1 ∨ sx = -1)
    (hsy : sy = 1 ∨ sy = -1) (hab : a ≤ b) :
    ∀ (fuel : Nat) (x0 y0 err p q : Int), 0 ≤ p → p ≤ a → 0 ≤ q → q ≤ b →
      x0 = x1 - sx * p → y0 = y1 - sy * q → err = a - b + p * b - q * a →
      2 * err ≤ a → q < fuel →
      ((draw_line.loop x1 y1 a (-b) sx sy fuel x0 y0 err).1.length : Int) = q + 1 ∧
      List.Chain' (line_step x1 y1) (draw_line.loop x1 y1 a (-b) sx sy fuel x0 y0 err).1 ∧
      (draw_line.loop x1 y1 a (-b) sx sy fuel x0 y0 err).1.Nodup := by
  have hsx0 : sx ≠ 0 := by rcases hsx with h | h <;> rw [h] <;> decide
  have hsy0 : sy ≠ 0 := by rcases hsy with h | h <;> rw [h] <;> decide
  intro fuel
  induction fuel with
  | zero =>
    intro x0 y0 err p q _ _ hq0 _ _ _ _ _ hfuel
    simp at hfuel
    omega
  | succ n ih =>
    intro x0 y0 err p q hp0 hpa hq0 hqb hx hy herr hinv hfuel
    have hpb : 0 ≤ p * b := mul_nonneg hp0 (le_trans hq0 hqb)
    have hqa : 0 ≤ q * a := mul_nonneg hq0 (le_trans hp0 hpa)
    have hspec := fun x0n y0n errn pn qn h1 h2 h3 h4 h5 h6 h7 =>
      (draw_line.loop_spec x1 y1 a b sx sy hsx0 hsy0 n x0n y0n errn pn qn h1 h2 h3 h4 h5 h6 h7).1
    unfold draw_line.loop
    by_cases hfin : x0 = x1 ∧ y0 = y1
    · rw [if_pos hfin]
      have hq : q = 0 := by
        have h1 : sy * q = 0 := by have := hfin.2; rw [hy] at this; linarith
        exact (mul_eq_zero.mp h1).resolve_left hsy0
      refine ⟨by rw [hq]; rfl, List.chain'_singleton _, List.nodup_singleton _⟩
    · rw [if_neg hfin]
      dsimp only
      have hq1 : 1 ≤ q := by
        by_contra hcon
        have hq : q = 0 := by omega
        have hp : p = 0 := by
          by_contra hp
          have hp1 : 1 ≤ p := by omega
          subst hq
          nlinarith
        exact hfin ⟨by rw [hx, hp]; ring, by rw [hy, hq]; ring⟩
      have hys : 2 * err ≤ a := hinv
      by_cases hxs : 2 * err ≥ -b
      · simp only [hxs, hys, if_true]
        have hp1 : 1 ≤ p := by
          by_contra hcon
          have hp : p = 0 := by omega
          subst hp
          nlinarith
        have hxn : x0 + sx = x1 - sx * (p - 1) := by rw [hx]; ring
        have hyn : y0 + sy = y1 - sy * (q - 1) := by rw [hy]; ring
        have hen : err + -b + a = a - b + (p - 1) * b - (q - 1) * a := by rw [herr]; ring
        obtain ⟨ih1, ih2, ih3⟩ := ih (x0 + sx) (y0 + sy) (err + -b + a) (p - 1) (q - 1)
          (by omega) (by omega) (by omega) (by omega) hxn hyn hen (by omega) (by omega)
        refine ⟨?_, ?_, ?_⟩
        · rw [List.length_cons]; push_cast; omega
        · rw [List.chain'_cons']
          refine ⟨fun px hpx => ?_, ih2⟩
          rw [draw_line.loop_head _ _ _ _ _ _ _ _ _ _ px hpx]
          simpa using line_step_intro x1 y1 x0 y0 sx sy p q 1 1 hsx hsy hx hy
            (Or.inr ⟨rfl, hp1⟩) (Or.inr ⟨rfl, hq1⟩) (Or.inl rfl)
        · rw [List.nodup_cons]
          refine ⟨fun hmem => ?_, ih3⟩
          obtain ⟨p2, q2, -, -, h3, h4, h5⟩ := hspec _ _ _ (p - 1) (q - 1)
            (by omega) (by omega) (by omega) (by omega) hxn hyn hen _ hmem
          have h6 : y0 = y1 - sy * q2 := (Prod.ext_iff.mp h5).2
          have h7 : sy * (q - q2) = 0 := by rw [hy] at h6; linarith
          have := (mul_eq_zero.mp h7).resolve_left hsy0
          omega
      · simp only [hxs, hys, if_true, if_false]
        have hyn : y0 + sy = y1 - sy * (q - 1) := by rw [hy]; ring
        have hen : err + a = a - b + p * b - (q - 1) * a := by rw [herr]; ring
        obtain ⟨ih1, ih2, ih3⟩ := ih x0 (y0 + sy) (err + a) p (q - 1)
          hp0 hpa (by omega) (by omega) hx hyn hen (by omega) (by omega)
        refine ⟨?_, ?_, ?_⟩
        · rw [List.length_cons]; push_cast; omega
        · rw [List.chain'_cons']
          refine ⟨fun px hpx => ?_, ih2⟩
          rw [draw_line.loop_head _ _ _ _ _ _ _ _ _ _ px hpx]
          simpa using line_step_intro x1 y1 x0 y0 sx sy p q 0 1 hsx hsy hx hy
            (Or.inl rfl) (Or.inr ⟨rfl, hq1⟩) (Or.inr rfl)
        · rw [List.nodup_cons]
          refine ⟨fun hmem => ?_, ih3⟩
          obtain ⟨p2, q2, -, -, h3, h4, h5⟩ := hspec _ _ _ p (q - 1)
            hp0 hpa (by omega) (by omega) hx hyn hen _ hmem
          have h6 : y0 = y1 - sy * q2 := (Prod.ext_iff.mp h5).2
          have h7 : sy * (q - q2) = 0 := by rw [hy] at h6; linarith
          have := (mul_eq_zero.mp h7).resolve_left hsy0
          omega

/-- Claim C18: whatever its integer arguments, with `(a0, b0)` and `(a1, b1)`
the clamped start and end points, `draw_line` writes exactly
`max |a1 - a0| |b1 - b0| + 1` pixels; each pixel after the first differs from
the one before by at most 1 in `x` and in `y`, by exactly 1 in one of them, and
lies no farther from the end point in either coordinate; no pixel is written
twice. -/
theorem draw_line_path (x0 y0 x1 y1 : Int) :
    ((draw_line x0 y0 x1 y1).length : Int)
      = max |clamp x1 0 (SCREEN_WIDTH - 1) - clamp x0 0 (SCREEN_WIDTH - 1)|
          |clamp y1 0 (SCREEN_HEIGHT - 1) - clamp y0 0 (SCREEN_HEIGHT - 1)| + 1 ∧
    List.Chain' (line_step (clamp x1 0 (SCREEN_WIDTH - 1)) (clamp y1 0 (SCREEN_HEIGHT - 1)))
      (draw_line x0 y0 x1 y1) ∧
    (draw_line x0 y0 x1 y1).Nodup := by
  unfold draw_line draw_line.run
  dsimp only
  generalize ha0 : clamp x0 0 (SCREEN_WIDTH - 1) = a0
  generalize hb0 : clamp y0 0 (SCREEN_HEIGHT - 1) = b0
  generalize ha1 : clamp x1 0 (SCREEN_WIDTH - 1) = a1
  generalize hb1 : clamp y1 0 (SCREEN_HEIGHT - 1) = b1
  have hx0 := clamp_bounds x0 0 (SCREEN_WIDTH - 1) (by decide)
  have hx1 := clamp_bounds x1 0 (SCREEN_WIDTH - 1) (by decide)
  have hy0 := clamp_bounds y0 0 (SCREEN_HEIGHT - 1) (by decide)
  have hy1 := clamp_bounds y1 0 (SCREEN_HEIGHT - 1) (by decide)
  rw [ha0] at hx0
  rw [ha1] at hx1
  rw [hb0] at hy0
  rw [hb1] at hy1
  have hW : SCREEN_WIDTH - 1 = 1199 := by decide
  have hH : SCREEN_HEIGHT - 1 = 599 := by decide
  rw [hW] at hx0 hx1
  rw [hH] at hy0 hy1
  have hfuel : ((SCREEN_WIDTH + SCREEN_HEIGHT).toNat : Int) = 1800 := by decide
  have hxa : |a1 - a0| ≤ 1199 := abs_le.mpr ⟨by omega, by omega⟩
  have hya : |b1 - b0| ≤ 599 := abs_le.mpr ⟨by omega, by omega⟩
  have hsx : (if a0 < a1 then (1 : Int) else -1) = 1 ∨ (if a0 < a1 then (1 : Int) else -1) = -1 := by
    split_ifs
    · exact Or.inl rfl
    · exact Or.inr rfl
  have hsy : (if b0 < b1 then (1 : Int) else -1) = 1 ∨ (if b0 < b1 then (1 : Int) else -1) = -1 := by
    split_ifs
    · exact Or.inl rfl
    · exact Or.inr rfl
  have hx : a0 = a1 - (if a0 < a1 then (1 : Int) else -1) * |a1 - a0| := by
    split_ifs with h
    · rw [abs_of_pos (by omega)]; ring
    · rw [abs_of_nonpos (by omega)]; ring
  have hy : b0 = b1 - (if b0 < b1 then (1 : Int) else -1) * |b1 - b0| := by
    split_ifs with h
    · rw [abs_of_pos (by omega)]; ring
    · rw [abs_of_nonpos (by omega)]; ring
  have ha := abs_nonneg (a1 - a0)
  have hb := abs_nonneg (b1 - b0)
  rcases le_total |b1 - b0| |a1 - a0| with hab | hab
  · rw [max_eq_left hab]
    exact draw_line.loop_wide a1 b1 |a1 - a0| |b1 - b0| _ _ hsx hsy hab _ a0 b0 _
      |a1 - a0| |b1 - b0| ha (le_refl _) hb (le_refl _) hx hy (by ring) (by omega) (by omega)
  · rw [max_eq_right hab]
    exact draw_line.loop_tall a1 b1 |a1 - a0| |b1 - b0| _ _ hsx hsy hab _ a0 b0 _
      |a1 - a0| |b1 - b0| ha (le_refl _) hb (le_refl _) hx hy (by ring) (by omega) (by omega)

/-! ## The filled circle -/

section CircleLemmas

variable {K : Type} [LinearOrderedField K] [FloorRing K]

/-- Claim C14: with `cx`, `cy`, `r` the center and radius of the circle
converted to `int` and `r >= 0`, the pixels `draw_filled_circle` writes are
exactly the pixels `(x, y)` of the screen, `0 <= x <= 1199` and
`0 <= y <= 599`, with `(x - cx)^2 + (y - cy)^2 <= r^2`; when no pixel of the
screen passes this test nothing is written. -/
theorem draw_filled_circle_writes_disc (circle : Circle K) (hr : 0 ≤ trunc circle.radius) :
    (∀ x y : Int, (x, y) ∈ draw_filled_circle circle ↔
      (0 ≤ x ∧ x ≤ 1199) ∧ (0 ≤ y ∧ y ≤ 599) ∧
      (x - trunc circle.pos.x) * (x - trunc circle.pos.x)
        + (y - trunc circle.pos.y) * (y - trunc circle.pos.y)
        ≤ trunc circle.radius * trunc circle.radius) ∧
    ((∀ x y : Int, 0 ≤ x → x ≤ 1199 → 0 ≤ y → y ≤ 599 →
        ¬ (x - trunc circle.pos.x) * (x - trunc circle.pos.x)
          + (y - trunc circle.pos.y) * (y - trunc circle.pos.y)
          ≤ trunc circle.radius * trunc circle.radius) →
      draw_filled_circle circle = []) := by
  have hmem : ∀ x y : Int, (x, y) ∈ draw_filled_circle circle ↔
      (0 ≤ x ∧ x ≤ 1199) ∧ (0 ≤ y ∧ y ≤ 599) ∧
      (x - trunc circle.pos.x) * (x - trunc circle.pos.x)
        + (y - trunc circle.pos.y) * (y - trunc circle.pos.y)
        ≤ trunc circle.radius * trunc circle.radius := by
    intro x y
    constructor
    · intro h
      obtain ⟨hx, hy⟩ := draw_filled_circle_on_screen circle (x, y) h
      exact ⟨hx, hy, (draw_filled_circle.mem_scan_on_screen _ _ _ x y hr hx.1 hx.2 hy.1
        hy.2).mp h⟩
    · rintro ⟨hx, hy, h⟩
      exact (draw_filled_circle.mem_scan_on_screen _ _ _ x y hr hx.1 hx.2 hy.1 hy.2).mpr h
  refine ⟨hmem, fun hnone => ?_⟩
  apply List.eq_nil_iff_forall_not_mem.mpr
  rintro ⟨x, y⟩ h
  obtain ⟨hx, hy, hd⟩ := (hmem x y).mp h
  exact hnone x y hx.1 hx.2 hy.1 hy.2 hd

end CircleLemmas

/-- Witness for C14: the obstacle of the initial scene at (200,100) of radius
30 and the pixel (200,100) at its center. -/
theorem draw_filled_circle_writes_disc_witness :
    ((200, 100) : Int × Int) ∈ draw_filled_circle (⟨⟨200, 100⟩, 30, ⟨0, 0⟩⟩ : Circle ℚ) := by
  have h30 : trunc (30 : ℚ) = 30 := by
    unfold trunc
    rw [if_pos (by norm_num)]
    exact Int.floor_eq_iff.mpr ⟨by norm_num, by norm_num⟩
  have h200 : trunc (200 : ℚ) = 200 := by
    unfold trunc
    rw [if_pos (by norm_num)]
    exact Int.floor_eq_iff.mpr ⟨by norm_num, by norm_num⟩
  have h100 : trunc (100 : ℚ) = 100 := by
    unfold trunc
    rw [if_pos (by norm_num)]
    exact Int.floor_eq_iff.mpr ⟨by norm_num, by norm_num⟩
  exact ((draw_filled_circle_writes_disc (⟨⟨200, 100⟩, 30, ⟨0, 0⟩⟩ : Circle ℚ)
    (by rw [h30]; norm_num)).1 200 100).mpr
    ⟨by norm_num, by norm_num, by rw [h200, h100, h30]; norm_num⟩

/-! ## The prototype rasteriser -/

section ProtoLemmas

variable {K : Type} [LinearOrderedField K] [FloorRing K]

/-- Converting an integer-valued `double` to `int` gives that integer. -/
theorem trunc_intCast (n : Int) : trunc (n : K) = n := by
  unfold trunc
  split_ifs
  · exact Int.floor_intCast n
  · exact Int.ceil_intCast n

/-- Between integer-valued bounds the loop variable of
`for (double v = lo; v <= hi; v++)` takes exactly the integer values from `lo`
to `hi`. -/
theorem Prototype.mem_forRangeD (lo hi : Int) (v : K) :
    v ∈ Prototype.forRangeD (lo : K) (hi : K) ↔ ∃ n : Int, lo ≤ n ∧ n ≤ hi ∧ v = (n : K) := by
  unfold Prototype.forRangeD
  have hfl : ⌊(hi : K) - (lo : K)⌋ = hi - lo := by
    rw [← Int.cast_sub]
    exact Int.floor_intCast _
  rw [hfl, List.mem_map]
  constructor
  · rintro ⟨i, hi1, rfl⟩
    rw [List.mem_range] at hi1
    exact ⟨lo + i, by omega, by omega, by push_cast; ring⟩
  · rintro ⟨n, h1, h2, rfl⟩
    refine ⟨(n - lo).toNat, List.mem_range.mpr (by omega), ?_⟩
    have : (((n - lo).toNat : Int) : K) = ((n - lo : Int) : K) := by
      rw [Int.toNat_of_nonneg (by omega)]
    rw [Int.cast_natCast] at this
    rw [this]
    push_cast
    ring

/-- Claim C19: for a circle with integer-valued center `(cx, cy)` and integer
radius `r >= 0`, the 1x1 rectangles the prototype `FillCircle` fills are
exactly the pixels `(x, y)` with `0 <= x < 900`, `0 <= y < 600` and
`(x - cx)^2 + (y - cy)^2 < r^2`; none lies outside the window. -/
theorem Prototype.FillCircle_fills_open_disc (cx cy r : Int) (hr : 0 ≤ r) (x y : Int) :
    (x, y) ∈ Prototype.FillCircle (⟨(cx : K), (cy : K), (r : K)⟩ : Prototype.Circle K) ↔
      (0 ≤ x ∧ x < 900) ∧ (0 ≤ y ∧ y < 600) ∧ (x - cx) ^ 2 + (y - cy) ^ 2 < r ^ 2 := by
  have hW : ((Prototype.WIDTH : Int) : K) = ((900 : Int) : K) := rfl
  have hH : ((Prototype.HEIGHT : Int) : K) = ((600 : Int) : K) := rfl
  unfold Prototype.FillCircle
  dsimp only
  rw [hW, hH, ← Int.cast_sub, ← Int.cast_add, ← Int.cast_sub, ← Int.cast_add]
  simp only [List.mem_flatMap, List.mem_filterMap, Prototype.mem_forRangeD]
  constructor
  · rintro ⟨vx, ⟨n, hn1, hn2, rfl⟩, vy, ⟨m, hm1, hm2, rfl⟩, hsome⟩
    split_ifs at hsome with hd hw
    obtain ⟨hx0, hx1, hy0, hy1⟩ := hw
    have hpx := Option.some.inj hsome
    rw [trunc_intCast, trunc_intCast] at hpx
    obtain ⟨rfl, rfl⟩ := Prod.mk.inj hpx
    refine ⟨⟨by exact_mod_cast hx0, by exact_mod_cast hx1⟩,
      ⟨by exact_mod_cast hy0, by exact_mod_cast hy1⟩, by exact_mod_cast hd⟩
  · rintro ⟨⟨hx0, hx1⟩, ⟨hy0, hy1⟩, hd⟩
    have hxr : |x - cx| < r := abs_lt_of_sq_lt_sq (by nlinarith [sq_nonneg (y - cy)]) hr
    have hyr : |y - cy| < r := abs_lt_of_sq_lt_sq (by nlinarith [sq_nonneg (x - cx)]) hr
    rw [abs_lt] at hxr hyr
    refine ⟨(x : K), ⟨x, by omega, by omega, rfl⟩, (y : K), ⟨y, by omega, by omega, rfl⟩, ?_⟩
    have hdK : ((x : K) - (cx : K)) ^ 2 + ((y : K) - (cy : K)) ^ 2 < (r : K) ^ 2 := by
      exact_mod_cast hd
    have hwK : (x : K) ≥ 0 ∧ (x : K) < ((900 : Int) : K) ∧ (y : K) ≥ 0
        ∧ (y : K) < ((600 : Int) : K) :=
      ⟨by exact_mod_cast hx0, by exact_mod_cast hx1, by exact_mod_cast hy0,
        by exact_mod_cast hy1⟩
    rw [if_pos hdK, if_pos hwK, trunc_intCast, trunc_intCast]

end ProtoLemmas

/-- Witness for C19: the circle the prototype draws, center (400,300) and
radius 80, fills the pixel (400,300) at its center. -/
theorem FillCircle_fills_open_disc_witness :
    ((400, 300) : Int × Int) ∈ Prototype.FillCircle
      (⟨((400 : Int) : ℚ), ((300 : Int) : ℚ), ((80 : Int) : ℚ)⟩ : Prototype.Circle ℚ) :=
  (Prototype.FillCircle_fills_open_disc 400 300 80 (by norm_num) 400 300).mpr
    ⟨by norm_num, by norm_num, by norm_num⟩

end TraceMaD
